import Mathlib

/-!
Verification of the stamina-toolset core against its specification.

This file shallowly embeds the relevant parts of the Rust source
(`src/model/vas_trie.rs`, `src/trace/trace_trie.rs`, `src/dependency/graph.rs`,
`src/bmc/encoding.rs`, `src/bmc/bounds.rs`, `src/cycle_commute/commute.rs`,
`src/builder/ragtimer/rl_traces.rs`) into Lean and proves or refutes the
frozen claims about them.

Modelling conventions:
- `VasValue` (`i128` in the source) is modelled as `Int`; the concrete runs
  studied here stay far below the `i128` range, so no wrap-around occurs.
- `ProbabilityOrRate` / `RewardValue` (`f64`) are modelled as `Rat`; every
  rate computation appearing in the proofs below is exact small-rational
  arithmetic, where `f64` and `Rat` agree.
- `DVector<VasValue>` is modelled as `List Int`, with element-wise operations
  as `List.zipWith`; the source only ever combines vectors of equal length.
- `HashMap` keyed association is modelled with association lists; the source
  never depends on `HashMap` iteration order for the functions embedded here.
- Rust panics and `Result` are modelled by the `RustResult` type below;
  fallible indexing uses `List.getD` at places where the embedded runs are
  provably in bounds.
-/

abbrev VasValue := Int
abbrev VasStateVector := List Int

/-- Element-wise addition of two state vectors (`DVector + DVector`). -/
def vadd (a b : VasStateVector) : VasStateVector := List.zipWith (· + ·) a b

/-- Scalar multiplication of a state vector (`DVector * scalar`). -/
def vscale (a : VasStateVector) (k : Int) : VasStateVector := a.map (· * k)

/-- Outcome of a Rust function that can return `Ok`, return `Err`, or panic. -/
inductive RustResult (α : Type) where
  | ok (a : α)
  | err (e : String)
  | panicked
deriving DecidableEq, Repr

def RustResult.isOk {α : Type} : RustResult α → Bool
  | .ok _ => true
  | _ => false

/-! ## State trie (`src/model/vas_trie.rs`)

`VasTrieNode` stores state vectors; children of an inner node are keyed by the
successive vector components.  The `HashMap<VasValue, VasTrieNode>` is
modelled as an association list with `lookupChild` / `setChild` giving the
`entry(..).or_insert_with(..)` behaviour. -/

inductive VasTrieNode where
  | leafNode (id : Nat)
  | node (children : List (Int × VasTrieNode))

def lookupChild : List (Int × VasTrieNode) → Int → Option VasTrieNode
  | [], _ => none
  | (k, c) :: rest, v => if k = v then some c else lookupChild rest v

def setChild : List (Int × VasTrieNode) → Int → VasTrieNode → List (Int × VasTrieNode)
  | [], v, c => [(v, c)]
  | (k, x) :: rest, v, c =>
      if k = v then (k, c) :: rest else (k, x) :: setChild rest v c

/-- The traversal loop of `insert_if_not_exists` followed by its final match:
walking down the trie creating missing inner nodes, breaking early at a leaf
(`Some(existing)`), installing `LeafNode(id)` when the walk ends at an inner
node (`None`). -/
def insertWalk : VasTrieNode → List Int → Nat → Option Nat × VasTrieNode
  | .leafNode e, _, _ => (some e, .leafNode e)
  | .node _, [], id => (none, .leafNode id)
  | .node ch, v :: vs, id =>
      let child := (lookupChild ch v).getD (.node [])
      let r := insertWalk child vs id
      (r.1, .node (setChild ch v r.2))

/-- `VasTrieNode::insert_if_not_exists`.  The source's outer match on `self`
(returning `Some(existing_id)` at a root leaf) coincides with the first case
of `insertWalk`.  The `error!` log emitted for `id == 0` does not alter the
returned value and is not modelled. -/
def VasTrieNode.insertIfNotExists (t : VasTrieNode) (state : List Int) (id : Nat) :
    Option Nat × VasTrieNode :=
  insertWalk t state id

theorem lookupChild_setChild_self (ch : List (Int × VasTrieNode)) (v : Int) (c : VasTrieNode) :
    lookupChild (setChild ch v c) v = some c := by
  induction ch with
  | nil => simp [setChild, lookupChild]
  | cons hd tl ih =>
      obtain ⟨k, x⟩ := hd
      by_cases hk : k = v
      · simp [setChild, lookupChild, hk]
      · simp [setChild, lookupChild, hk, ih]

theorem setChild_setChild_self (ch : List (Int × VasTrieNode)) (v : Int) (c d : VasTrieNode) :
    setChild (setChild ch v c) v d = setChild ch v d := by
  induction ch with
  | nil => simp [setChild]
  | cons hd tl ih =>
      obtain ⟨k, x⟩ := hd
      by_cases hk : k = v
      · simp [setChild, hk]
      · simp [setChild, hk, ih]

/-- Core induction for the trie round-trip: if a walk freshly inserted `v`
with id `a` (returning `none`), re-walking `v` finds `a` and leaves the trie
unchanged. -/
theorem insertWalk_again (v : List Int) :
    ∀ (t : VasTrieNode) (a b : Nat), (insertWalk t v a).1 = none →
      insertWalk (insertWalk t v a).2 v b = (some a, (insertWalk t v a).2) := by
  induction v with
  | nil =>
      intro t a b h
      cases t with
      | leafNode e => simp [insertWalk] at h
      | node ch => simp [insertWalk]
  | cons x xs ih =>
      intro t a b h
      cases t with
      | leafNode e => simp [insertWalk] at h
      | node ch =>
          have h1 : (insertWalk ((lookupChild ch x).getD (.node [])) xs a).1 = none := by
            simpa [insertWalk] using h
          have h2 := ih ((lookupChild ch x).getD (.node [])) a b h1
          simp only [insertWalk, lookupChild_setChild_self, Option.getD_some]
          rw [h2]
          simp [setChild_setChild_self]

/-- C8: for every state vector `v` and ids `a, b ≠ 0`, after a fresh insertion
of `v` with id `a` (returning `none`), a second insertion of `v` with id `b`
returns `some a` and leaves the trie bit-for-bit unchanged; consequently every
subsequent insertion of `v` also yields `a`, and two distinct ids never end up
associated with the same vector. -/
theorem c8_trie_reinsert (t : VasTrieNode) (v : List Int) (a b : Nat)
    (ha : a ≠ 0) (hb : b ≠ 0) (h : (t.insertIfNotExists v a).1 = none) :
    ((t.insertIfNotExists v a).2).insertIfNotExists v b
      = (some a, (t.insertIfNotExists v a).2) := by
  exact insertWalk_again v t a b h

/-- C8 witness: concrete run on the empty trie with `v = [1, 2]`, `a = 1`,
`b = 2`. -/
theorem c8_trie_reinsert_witness :
    ((1 : Nat) ≠ 0 ∧ (2 : Nat) ≠ 0
      ∧ ((VasTrieNode.node []).insertIfNotExists [1, 2] 1).1 = none)
    ∧ (((VasTrieNode.node []).insertIfNotExists [1, 2] 1).2).insertIfNotExists [1, 2] 2
        = (some 1, ((VasTrieNode.node []).insertIfNotExists [1, 2] 1).2) :=
  ⟨⟨by decide, by decide, by rfl⟩,
    c8_trie_reinsert (VasTrieNode.node []) [1, 2] 1 2 (by decide) (by decide) (by rfl)⟩

/-! ## Trace trie (`src/trace/trace_trie.rs`)

Same nested-map structure keyed by transition ids; leaves carry no payload.
`exists_or_insert` returns `true` if the trace was already present and
`false` after inserting it. -/

inductive TraceTrieNode where
  | leafNode
  | node (children : List (Nat × TraceTrieNode))

def lookupTChild : List (Nat × TraceTrieNode) → Nat → Option TraceTrieNode
  | [], _ => none
  | (k, c) :: rest, v => if k = v then some c else lookupTChild rest v

def setTChild : List (Nat × TraceTrieNode) → Nat → TraceTrieNode → List (Nat × TraceTrieNode)
  | [], v, c => [(v, c)]
  | (k, x) :: rest, v, c =>
      if k = v then (k, c) :: rest else (k, x) :: setTChild rest v c

/-- `TraceTrieNode::exists_or_insert`: the traversal loop (breaking early at a
leaf) followed by the final match, returning `(existed, updated trie)`. -/
def TraceTrieNode.existsOrInsert : TraceTrieNode → List Nat → Bool × TraceTrieNode
  | .leafNode, _ => (true, .leafNode)
  | .node _, [] => (false, .leafNode)
  | .node ch, v :: vs =>
      let child := (lookupTChild ch v).getD (.node [])
      let r := TraceTrieNode.existsOrInsert child vs
      (r.1, .node (setTChild ch v r.2))

/-- Membership in the trace trie, defined as what `exists_or_insert` reports:
a trace is "present" when the walk reaches a leaf at or before its end. -/
def TraceTrieNode.memTrace : TraceTrieNode → List Nat → Bool
  | .leafNode, _ => true
  | .node _, [] => false
  | .node ch, v :: vs =>
      match lookupTChild ch v with
      | none => false
      | some c => TraceTrieNode.memTrace c vs

theorem memTrace_emptyNode (v : List Nat) : (TraceTrieNode.node []).memTrace v = false := by
  cases v <;> simp [TraceTrieNode.memTrace, lookupTChild]

theorem existsOrInsert_fst (v : List Nat) : ∀ t : TraceTrieNode,
    (t.existsOrInsert v).1 = t.memTrace v := by
  induction v with
  | nil => intro t; cases t <;> simp [TraceTrieNode.existsOrInsert, TraceTrieNode.memTrace]
  | cons x xs ih =>
      intro t
      cases t with
      | leafNode => simp [TraceTrieNode.existsOrInsert, TraceTrieNode.memTrace]
      | node ch =>
          simp only [TraceTrieNode.existsOrInsert, TraceTrieNode.memTrace]
          cases h : lookupTChild ch x with
          | none => simpa [h, memTrace_emptyNode] using ih (.node [])
          | some c => simpa [h] using ih c

theorem lookupTChild_setTChild (ch : List (Nat × TraceTrieNode)) (v w : Nat) (c : TraceTrieNode) :
    lookupTChild (setTChild ch v c) w = if v = w then some c else lookupTChild ch w := by
  induction ch with
  | nil =>
      by_cases h : v = w <;> simp [setTChild, lookupTChild, h]
  | cons hd tl ih =>
      obtain ⟨k, x⟩ := hd
      by_cases hk : k = v
      · subst hk
        by_cases h : k = w <;> simp [setTChild, lookupTChild, h]
      · by_cases h : k = w
        · subst h
          have hvk : ¬ v = k := fun hh => hk hh.symm
          simp [setTChild, lookupTChild, hk, hvk]
        · simp [setTChild, lookupTChild, hk, h, ih]

/-- After inserting `v`, `v` is present. -/
theorem memTrace_existsOrInsert_self (v : List Nat) : ∀ t : TraceTrieNode,
    ((t.existsOrInsert v).2).memTrace v = true := by
  induction v with
  | nil => intro t; cases t <;> simp [TraceTrieNode.existsOrInsert, TraceTrieNode.memTrace]
  | cons x xs ih =>
      intro t
      cases t with
      | leafNode => simp [TraceTrieNode.existsOrInsert, TraceTrieNode.memTrace]
      | node ch =>
          simp only [TraceTrieNode.existsOrInsert, TraceTrieNode.memTrace,
            lookupTChild_setTChild, if_pos rfl]
          exact ih _

/-- Insertion preserves membership of every already-present trace. -/
theorem memTrace_existsOrInsert_mono (v : List Nat) : ∀ (t : TraceTrieNode) (w : List Nat),
    t.memTrace w = true → ((t.existsOrInsert v).2).memTrace w = true := by
  induction v with
  | nil =>
      intro t w hw
      cases t with
      | leafNode => simpa [TraceTrieNode.existsOrInsert] using hw
      | node ch => simp [TraceTrieNode.existsOrInsert, TraceTrieNode.memTrace]
  | cons x xs ih =>
      intro t w hw
      cases t with
      | leafNode => simpa [TraceTrieNode.existsOrInsert] using hw
      | node ch =>
          cases w with
          | nil => simp [TraceTrieNode.memTrace] at hw
          | cons y ys =>
              simp only [TraceTrieNode.memTrace] at hw
              cases hl : lookupTChild ch y with
              | none => simp [hl] at hw
              | some c =>
                  have hw2 : c.memTrace ys = true := by
                    rw [hl] at hw; simpa using hw
                  simp only [TraceTrieNode.existsOrInsert, TraceTrieNode.memTrace,
                    lookupTChild_setTChild]
                  by_cases hxy : x = y
                  · subst hxy
                    simp only [if_pos rfl, hl, Option.getD_some]
                    exact ih c ys hw2
                  · simp [if_neg hxy, hl, hw2]

/-! ## VAS data model (`src/model/vas_model.rs`)

Only the fields consumed by the embedded functions are modelled.
`custom_rate_fn` is omitted: it is `None` for every model constructed in this
file (the source's `CustomRateFn` equality is only exercised through
`Option::eq`, where `None == None` holds, matching the omission).
`m_type` and `z3_context` are unused by the embedded code paths. -/

structure VasProperty where
  variable_index : Nat
  target_value : Int
deriving DecidableEq, Repr

structure VasTransition where
  transition_id : Nat
  transition_name : String
  update_vector : VasStateVector
  enabled_bounds : VasStateVector
  rate_const : Rat
deriving DecidableEq, Repr

structure VasState where
  vector : VasStateVector
deriving DecidableEq, Repr

structure AbstractVas where
  variable_names : List String
  initial_states : List VasState
  transitions : List VasTransition
  target : VasProperty
deriving DecidableEq, Repr

/-- `usize::MAX`, the id given to the artificial root transition. -/
def usizeMax : Nat := 18446744073709551615

/-- `VasTransition::enabled_vector`: the state is elementwise at or above
`enabled_bounds` (the try-fold over `zip` pairs up to the shorter length). -/
def VasTransition.enabledVector (t : VasTransition) (state : VasStateVector) : Bool :=
  (List.zip t.enabled_bounds state).all (fun p => p.2 ≥ p.1)

/-! ## Dependency graph (`src/dependency/graph.rs`) -/

def DEBUG_DEPTH_LIMIT : Nat := 5000

/-- A dependency-graph node; constructor fields in order: transition,
children, parents, executions, enabled, node_init, node_target, decrement. -/
inductive GraphNode where
  | mk : VasTransition → List GraphNode → List VasTransition → Int → Bool
      → VasState → List VasProperty → Bool → GraphNode

def GraphNode.transition : GraphNode → VasTransition
  | .mk t _ _ _ _ _ _ _ => t

def GraphNode.children : GraphNode → List GraphNode
  | .mk _ c _ _ _ _ _ _ => c

def GraphNode.parents : GraphNode → List VasTransition
  | .mk _ _ p _ _ _ _ _ => p

def GraphNode.executions : GraphNode → Int
  | .mk _ _ _ e _ _ _ _ => e

def GraphNode.enabled : GraphNode → Bool
  | .mk _ _ _ _ e _ _ _ => e

def GraphNode.node_init : GraphNode → VasState
  | .mk _ _ _ _ _ i _ _ => i

def GraphNode.node_target : GraphNode → List VasProperty
  | .mk _ _ _ _ _ _ t _ => t

def GraphNode.decrement : GraphNode → Bool
  | .mk _ _ _ _ _ _ _ d => d

/-- The child-merging pass of `rec_build_graph`: for each drained child, if a
child with the same transition name is already retained, keep whichever has
the larger multiplicity, otherwise append. -/
def mergeInto : List GraphNode → GraphNode → List GraphNode
  | [], c => [c]
  | x :: xs, c =>
      if x.transition.transition_name = c.transition.transition_name then
        (if c.executions > x.executions then c else x) :: xs
      else
        x :: mergeInto xs c

/-- The candidate scan of `rec_build_graph` for one residual target and one
model transition: skip transitions named in the ancestor chain, require the
sign of the target to match the sign of the transition's update at the target
variable, compute the multiplicity by truncating integer division, and admit
the child only when it is positive. -/
def candidateChild (node : GraphNode) (childInit : VasState) (target : VasProperty)
    (trans : VasTransition) : Option GraphNode :=
  if ∀ p ∈ node.parents, p.transition_name ≠ trans.transition_name then
    if (target.target_value > 0 ∧ trans.update_vector.getD target.variable_index 0 > 0)
        ∨ (target.target_value < 0 ∧ trans.update_vector.getD target.variable_index 0 < 0) then
      let thisChildTargets : List VasProperty :=
        [⟨target.variable_index, target.target_value⟩]
      let executions : Int := target.target_value / trans.update_vector.getD target.variable_index 0
      if executions > 0 then
        some (GraphNode.mk trans [] (node.parents ++ [node.transition]) |executions|
          thisChildTargets.isEmpty childInit thisChildTargets (executions < 0))
      else none
    else none
  else none

/-- The `child_init` computation of `rec_build_graph`: the node's init state
plus its update scaled by its multiplicity, then for each index where
`update[i] + enabled_bounds[i] ≠ 0` subtract `enabled_bounds[i]`. -/
def childInitOf (node : GraphNode) : VasState :=
  ⟨vadd (vadd node.node_init.vector (vscale node.transition.update_vector node.executions))
    (List.zipWith (fun u b => if u + b ≠ 0 then -b else 0)
      node.transition.update_vector node.transition.enabled_bounds)⟩

/-- The residual-target computation of `rec_build_graph`: for each entry of
the node's target list, the amount left after this node's firings, kept only
when nonzero. -/
def childTargetsOf (node : GraphNode) : List VasProperty :=
  node.node_target.filterMap (fun prop =>
    let reqd : Int :=
      if node.decrement then
        prop.target_value
          + (0 - node.transition.update_vector.getD prop.variable_index 0) * node.executions
      else
        prop.target_value
          - (0 + node.transition.update_vector.getD prop.variable_index 0) * node.executions
    if reqd ≠ 0 then some ⟨prop.variable_index, reqd⟩ else none)

/-- The implicit negative targets of `rec_build_graph`: one target per index
of `child_init` that went negative. -/
def negativeTargetsOf (childInit : VasState) : List VasProperty :=
  (List.range childInit.vector.length).filterMap (fun i =>
    if childInit.vector.getD i 0 < 0 then
      some ⟨i, -(childInit.vector.getD i 0)⟩
    else none)

/-- `GraphNode::rec_build_graph`, with the recursion-depth bookkeeping carried
as remaining gas: a call at source depth `d` corresponds to gas
`DEBUG_DEPTH_LIMIT + 1 - d`, so the source guard `depth > DEBUG_DEPTH_LIMIT`
is exactly `gas = 0`, and the recursive call at `depth + 1` is the call at
`gas - 1`.  Returns the `Result` together with the mutated node.  The
`.get(..).unwrap()` accesses are modelled with `getD`; every model examined in
this file keeps them in bounds. -/
def recBuildAux (vas : AbstractVas) : Nat → GraphNode → RustResult Unit × GraphNode
  | 0, node => (.err ("Error: Depth limit exceeded: " ++ toString DEBUG_DEPTH_LIMIT), node)
  | gas + 1, node =>
      if node.enabled then (.ok (), node)
      else
        let childInit : VasState := childInitOf node
        let allTargets := childTargetsOf node ++ negativeTargetsOf childInit
        let added := allTargets.flatMap (fun target =>
          vas.transitions.filterMap (fun trans => candidateChild node childInit target trans))
        let merged := (node.children ++ added).foldl mergeInto []
        let childrenRec := merged.map (fun c => (recBuildAux vas gas c).2)
        (.ok (), GraphNode.mk node.transition childrenRec node.parents node.executions
          (node.enabled && childrenRec.all (fun c => c.enabled))
          node.node_init node.node_target node.decrement)

/-- `rec_build_graph` at a given source depth (see `recBuildAux`). -/
def recBuildGraph (vas : AbstractVas) (node : GraphNode) (depth : Nat) :
    RustResult Unit × GraphNode :=
  recBuildAux vas (DEBUG_DEPTH_LIMIT + 1 - depth) node

structure DependencyGraph where
  root : GraphNode

/-- `property_sat`: the buggy bounds guard `len < variable_index` followed by
the raw index—indexing at `variable_index = len` panics. -/
def propertySat (prop : VasProperty) (state : VasState) : RustResult Bool :=
  if state.vector.length < prop.variable_index then
    .err ("Error: Index out of bounds for state vector: "
      ++ toString prop.variable_index ++ " >= " ++ toString state.vector.length)
  else if h : prop.variable_index < state.vector.length then
    .ok (state.vector.get ⟨prop.variable_index, h⟩ = prop.target_value)
  else
    .panicked

/-- `make_dependency_graph`.  Indexing `initial_states[0]` on an empty vector
panics; once `property_sat` returns `Ok(false)`, the target index is in
bounds.  The final `rec_build_graph` result is discarded (`let _ = ...` in the
source). -/
def makeDependencyGraph (vas : AbstractVas) : RustResult (Option DependencyGraph) :=
  match vas.initial_states with
  | [] => .panicked
  | s0 :: _ =>
    let initialState : VasState := ⟨s0.vector⟩
    match propertySat vas.target initialState with
    | .ok true => .err "Error: Initial state satisfies the target property. Probability is 1 and this analysis is pointless."
    | .err _ => .err "Error: Cannot check initial state against target property."
    | .panicked => .panicked
    | .ok false =>
      let targetVariable := vas.target.variable_index
      let initialValue := initialState.vector.getD targetVariable 0
      let targetValue := vas.target.target_value
      let targetDifference :=
        if initialValue < targetValue then targetValue - initialValue
        else initialValue - targetValue
      let decrement := initialValue > targetValue
      let root0 := GraphNode.mk
        ⟨usizeMax, "ARTIFICIAL", List.replicate vas.variable_names.length 0,
          List.replicate vas.variable_names.length 0, 0⟩
        [] [] targetDifference false initialState
        [⟨targetVariable, targetDifference⟩] decrement
      let root1 :=
        if root0.decrement then
          match root0.node_target with
          | [] => root0
          | ft :: rest => GraphNode.mk root0.transition root0.children root0.parents
              root0.executions root0.enabled root0.node_init
              (⟨ft.variable_index,
                  ft.target_value - root0.node_init.vector.getD ft.variable_index 0⟩ :: rest)
              root0.decrement
        else root0
      let r := recBuildGraph vas root1 1
      .ok (some ⟨r.2⟩)

/-- `DependencyGraph::get_transitions`: all transitions in the tree except the
artificial root. -/
def GraphNode.allTransitions : GraphNode → List VasTransition
  | .mk t ch _ _ _ _ _ _ =>
      (if t.transition_name ≠ "ARTIFICIAL" then [t] else [])
        ++ ch.attach.flatMap (fun c => GraphNode.allTransitions c.1)
decreasing_by
  have := List.sizeOf_lt_of_mem c.2
  simp [GraphNode.mk.sizeOf_spec]
  omega

def DependencyGraph.getTransitions (g : DependencyGraph) : List VasTransition :=
  g.root.allTransitions

/-- Height of a dependency-graph node: the number of nodes on the longest
root-to-leaf chain. -/
def GraphNode.height : GraphNode → Nat
  | .mk _ ch _ _ _ _ _ _ =>
      1 + (ch.attach.map (fun c => GraphNode.height c.1)).foldl max 0
decreasing_by
  have := List.sizeOf_lt_of_mem c.2
  simp [GraphNode.mk.sizeOf_spec]
  omega

/-! ## Claims C10 and C5 about the dependency-graph constructor -/

/-- C10: if the target's variable index is strictly greater than the length of
the initial state vector, `make_dependency_graph` returns the
"Cannot check initial state against target property" error; if the index is
exactly the vector length, the `len < variable_index` guard in `property_sat`
accepts it and the subsequent indexing panics instead. -/
theorem c10_target_index_checks (vas : AbstractVas) (s0 : VasState) (rest : List VasState)
    (hinit : vas.initial_states = s0 :: rest) :
    (s0.vector.length < vas.target.variable_index →
      makeDependencyGraph vas
        = .err "Error: Cannot check initial state against target property.")
    ∧ (vas.target.variable_index = s0.vector.length →
      makeDependencyGraph vas = RustResult.panicked) := by
  constructor
  · intro hlt
    simp only [makeDependencyGraph, hinit, propertySat, if_pos hlt]
  · intro heq
    have h1 : ¬ s0.vector.length < vas.target.variable_index := by omega
    have h2 : ¬ vas.target.variable_index < s0.vector.length := by omega
    simp only [makeDependencyGraph, hinit, propertySat, if_neg h1, dif_neg h2]

/-- Model with one variable whose target index (2) exceeds the vector length. -/
def c10ModelOver : AbstractVas :=
  { variable_names := ["A"]
    initial_states := [⟨[0]⟩]
    transitions := []
    target := ⟨2, 1⟩ }

/-- Model with one variable whose target index (1) equals the vector length. -/
def c10ModelEq : AbstractVas :=
  { variable_names := ["A"]
    initial_states := [⟨[0]⟩]
    transitions := []
    target := ⟨1, 1⟩ }

/-- C10 witness: both boundary behaviours on concrete one-variable models. -/
theorem c10_target_index_checks_witness :
    (makeDependencyGraph c10ModelOver
        = .err "Error: Cannot check initial state against target property.")
    ∧ makeDependencyGraph c10ModelEq = RustResult.panicked :=
  ⟨(c10_target_index_checks c10ModelOver ⟨[0]⟩ [] rfl).1 (by decide),
    (c10_target_index_checks c10ModelEq ⟨[0]⟩ [] rfl).2 (by decide)⟩

/-- The model of spec Scenario A restricted to one variable: `A init 0`,
transition `t0` producing one `A`, target `A = 2`.  Building its dependency
graph creates a single child (`t0`, multiplicity 2) whose residual target
list is empty, so it gets no children. -/
def c5Model : AbstractVas :=
  { variable_names := ["A"]
    initial_states := [⟨[0]⟩]
    transitions := [⟨0, "t0", [1], [0], 1⟩]
    target := ⟨0, 2⟩ }

/-- Children of the root of a successfully built dependency graph. -/
def depGraphChildren : RustResult (Option DependencyGraph) → List GraphNode
  | .ok (some g) => g.root.children
  | _ => []

/-- C5: refuted — no code path in `rec_build_graph` ever sets `enabled` to
`true` (children are created with `enabled = this_child_targets.is_empty()`,
but a target is always pushed before the node is created, and the conjunctive
propagation only ever writes `false`).  On `c5Model` the sole child `t0 × 2`
ends construction with an empty residual target list and no children, yet its
`enabled` flag is `false`; having no children, it also refutes
"enabled iff all children enabled". -/
theorem c5_leaf_enabled_flag_false :
    (makeDependencyGraph c5Model).isOk = true
    ∧ (depGraphChildren (makeDependencyGraph c5Model)).map
        (fun c => (c.children.isEmpty, c.enabled)) = [(true, false)]
    ∧ (depGraphChildren (makeDependencyGraph c5Model)).map
        (fun c => c.executions) = [2] := by
  refine ⟨by decide, by decide, by decide⟩

/-! ## Claim C4: depth-limit errors are discarded

`rec_build_graph` returns `Err` when its depth exceeds `DEBUG_DEPTH_LIMIT`,
but both call sites (`let _ = child.rec_build_graph(..)` inside the recursion
and `let _ = dependency_graph.root.rec_build_graph(vas, 1)` in
`make_dependency_graph`) discard the result, so the error never surfaces.
The chain model below drives the recursion to depth 5001: transition `tᵢ`
produces variable `vᵢ` and consumes variable `vᵢ₊₁`, so satisfying the target
on `v₀` makes `v₁` negative, which recruits `t₁`, which makes `v₂` negative,
and so on through 5000 distinct transitions. -/

def chainN : Nat := 5000
def chainNumVars : Nat := 5001

/-- Distinct transition names of strictly increasing length. -/
def chainName (i : Nat) : String := ⟨'t' :: List.replicate i 'a'⟩

def chainUpdF (i j : Nat) : Int := if j = i then 1 else if j = i + 1 then -1 else 0
def chainBndF (i j : Nat) : Int := if j = i + 1 then 1 else 0

def chainUpd (i : Nat) : VasStateVector := (List.range chainNumVars).map (chainUpdF i)
def chainBnd (i : Nat) : VasStateVector := (List.range chainNumVars).map (chainBndF i)

/-- The all-zero vector used by the initial state and artificial root. -/
def zerosV : VasStateVector := List.replicate chainNumVars 0

def chainT (i : Nat) : VasTransition := ⟨i, chainName i, chainUpd i, chainBnd i, 1⟩

/-- The artificial root transition `make_dependency_graph` constructs for
`chainVas`. -/
def artT : VasTransition := ⟨usizeMax, "ARTIFICIAL", zerosV, zerosV, 0⟩

def chainVNames : List String := List.replicate chainNumVars "v"
def chainTs : List VasTransition := (List.range chainN).map chainT

def chainVas : AbstractVas :=
  { variable_names := chainVNames
    initial_states := [⟨zerosV⟩]
    transitions := chainTs
    target := ⟨0, 1⟩ }

/-- The `node_init` vector of the `i`-th chain node: after `t₀ … tᵢ₋₁` have
each fired once, `v₀` holds `1` and `vᵢ` holds `-1`. -/
def nInitF (i j : Nat) : Int :=
  if i = 0 then 0 else if j = 0 then 1 else if j = i then -1 else 0

def nInitL (i : Nat) : VasStateVector := (List.range chainNumVars).map (nInitF i)

/-- The `i`-th chain node as freshly created by the candidate scan of its
parent (children not yet built). -/
def chainNode (i : Nat) : GraphNode :=
  GraphNode.mk (chainT i) [] (artT :: (List.range i).map chainT) 1 false
    ⟨nInitL i⟩ [⟨i, 1⟩] false

/-- The `i`-th chain node after `rec_build_graph` returned, when `d` further
levels were built beneath it. -/
def builtChain : Nat → Nat → GraphNode
  | 0, i => chainNode i
  | d + 1, i =>
      GraphNode.mk (chainT i) [builtChain d (i + 1)] (artT :: (List.range i).map chainT) 1 false
        ⟨nInitL i⟩ [⟨i, 1⟩] false

theorem chainName_inj {i j : Nat} (h : chainName i = chainName j) : i = j := by
  have hd : ('t' :: List.replicate i 'a') = ('t' :: List.replicate j 'a') := by
    simpa [chainName] using congrArg String.data h
  have hlen := congrArg List.length hd
  simpa using hlen

theorem artificial_ne_chainName (i : Nat) : "ARTIFICIAL" ≠ chainName i := by
  intro hcontra
  have h2 : ("ARTIFICIAL".data) = ('t' :: List.replicate i 'a') := by
    simpa [chainName] using congrArg String.data hcontra
  have h3 : "ARTIFICIAL".data.head? = some 'A' := by decide
  rw [h2] at h3
  simp at h3

theorem rangeMap_getD (n j : Nat) (f : Nat → Int) (d : Int) (h : j < n) :
    ((List.range n).map f).getD j d = f j := by
  rw [List.getD_eq_getElem?_getD]
  simp [List.getElem?_map, List.getElem?_range, h]

theorem zipWith_map_same {α : Type} (h : Int → Int → Int) (f g : α → Int) (l : List α) :
    List.zipWith h (l.map f) (l.map g) = l.map (fun j => h (f j) (g j)) := by
  induction l with
  | nil => rfl
  | cons x xs ih => simp [ih]

theorem filterMapRange_none {α : Type} (h : Nat → Option α) (n : Nat)
    (hnone : ∀ j, j < n → h j = none) : (List.range n).filterMap h = [] := by
  induction n with
  | zero => rfl
  | succ m ih =>
      rw [List.range_succ, List.filterMap_append]
      rw [ih (fun j hj => hnone j (by omega))]
      simp [hnone m (by omega)]

theorem filterMapRange_single {α : Type} (h : Nat → Option α) (n k : Nat) (x : α)
    (hk : k < n) (hx : h k = some x) (hnone : ∀ j, j < n → j ≠ k → h j = none) :
    (List.range n).filterMap h = [x] := by
  induction n with
  | zero => omega
  | succ m ih =>
      rw [List.range_succ, List.filterMap_append]
      by_cases hkm : k = m
      · subst hkm
        rw [filterMapRange_none h k (fun j hj => hnone j (by omega) (by omega))]
        simp [hx]
      · have hklt : k < m := by omega
        rw [ih hklt (fun j hj hjk => hnone j (by omega) hjk)]
        simp [hnone m (by omega) (fun hh => hkm hh.symm)]

theorem rangeMap_replicate (n : Nat) (b : Int) :
    (List.range n).map (fun _ => b) = List.replicate n b := by
  induction n with
  | zero => rfl
  | succ m ih => rw [List.range_succ]; simp [ih, List.replicate_succ']


@[simp] theorem chainNode_transition (i : Nat) : (chainNode i).transition = chainT i := rfl
@[simp] theorem chainNode_children (i : Nat) : (chainNode i).children = [] := rfl
@[simp] theorem chainNode_parents (i : Nat) :
    (chainNode i).parents = artT :: (List.range i).map chainT := rfl
@[simp] theorem chainNode_executions (i : Nat) : (chainNode i).executions = 1 := rfl
@[simp] theorem chainNode_enabled (i : Nat) : (chainNode i).enabled = false := rfl
@[simp] theorem chainNode_node_init (i : Nat) : (chainNode i).node_init = ⟨nInitL i⟩ := rfl
@[simp] theorem chainNode_node_target (i : Nat) :
    (chainNode i).node_target = [⟨i, 1⟩] := rfl
@[simp] theorem chainNode_decrement (i : Nat) : (chainNode i).decrement = false := rfl
@[simp] theorem chainT_update (i : Nat) : (chainT i).update_vector = chainUpd i := by
  unfold chainT; with_reducible rfl
@[simp] theorem chainT_bounds (i : Nat) : (chainT i).enabled_bounds = chainBnd i := by
  unfold chainT; with_reducible rfl
@[simp] theorem chainT_name (i : Nat) : (chainT i).transition_name = chainName i := by
  unfold chainT; with_reducible rfl

theorem chainLt : chainN < chainNumVars := by norm_num [chainN, chainNumVars]

theorem chainUpd_getD (i j : Nat) (h : j < chainNumVars) :
    (chainUpd i).getD j 0 = chainUpdF i j := by
  unfold chainUpd; exact rangeMap_getD _ _ _ _ h

theorem nInitL_getD (i j : Nat) (h : j < chainNumVars) :
    (nInitL i).getD j 0 = nInitF i j := by
  unfold nInitL; exact rangeMap_getD _ _ _ _ h

/-- Generic shape of the `child_init` computation on range-map vectors, kept
abstract in `n` so no list is ever evaluated. -/
theorem vops_rangeMap (n : Nat) (f g b : Nat → Int) (k : Int) :
    vadd (vadd ((List.range n).map f) (vscale ((List.range n).map g) k))
      (List.zipWith (fun u bb => if u + bb ≠ 0 then -bb else 0)
        ((List.range n).map g) ((List.range n).map b))
    = (List.range n).map
        (fun j => f j + g j * k + (if g j + b j ≠ 0 then -(b j) else 0)) := by
  unfold vadd vscale
  rw [List.map_map]
  rw [zipWith_map_same (fun u bb => if u + bb ≠ 0 then -bb else 0) g b]
  rw [zipWith_map_same _ f ((fun x => x * k) ∘ g)]
  rw [zipWith_map_same]
  apply List.map_congr_left
  intro j hj
  simp [Function.comp]

theorem filterMap_singleton {α β : Type} (f : α → Option β) (a : α) :
    List.filterMap f [a] = (f a).toList := by
  cases h : f a <;> simp [List.filterMap_cons, h]

/-- `child_init` at the `i`-th chain node is the `node_init` of the next
chain node: the per-index adjustment vanishes (producers have bound 0, the
consumed index has `update + bound = 0`). -/
theorem chain_childInit (i : Nat) :
    childInitOf (chainNode i) = ⟨nInitL (i + 1)⟩ := by
  simp only [childInitOf, chainNode_node_init, chainNode_transition, chainNode_executions,
    chainT_update, chainT_bounds]
  unfold nInitL chainUpd chainBnd
  rw [vops_rangeMap]
  apply congrArg
  apply List.map_congr_left
  intro j hj
  unfold nInitF chainUpdF chainBndF
  split_ifs <;> first | exact (‹False›).elim | omega

/-- The node's own residual target vanishes: it produces exactly what its
parent demanded. -/
theorem chain_childTargets (i : Nat) (hi : i < chainNumVars) :
    childTargetsOf (chainNode i) = [] := by
  unfold childTargetsOf
  rw [chainNode_node_target, filterMap_singleton]
  simp only [chainNode_decrement, chainNode_transition, chainNode_executions, chainT_update]
  rw [chainUpd_getD _ _ hi]
  have h1 : chainUpdF i i = 1 := by unfold chainUpdF; simp
  rw [h1]
  norm_num

@[simp] theorem VasState_mk_vector (v : VasStateVector) : (VasState.mk v).vector = v := rfl

/-- `negativeTargetsOf` on a range-map state, kept abstract in `n`. -/
theorem negativeTargets_rangeMap (n : Nat) (f : Nat → Int) :
    negativeTargetsOf ⟨(List.range n).map f⟩
      = (List.range n).filterMap (fun i => if f i < 0 then some ⟨i, -(f i)⟩ else none) := by
  unfold negativeTargetsOf
  rw [VasState_mk_vector, List.length_map, List.length_range]
  apply List.filterMap_congr
  intro j hj
  rw [List.mem_range] at hj
  rw [rangeMap_getD _ _ _ _ hj]

/-- The freshly consumed variable is the sole implicit negative target. -/
theorem chain_negativeTargets (i : Nat) (hii : i + 1 < chainNumVars) :
    negativeTargetsOf ⟨nInitL (i + 1)⟩ = [⟨i + 1, 1⟩] := by
  unfold nInitL
  rw [negativeTargets_rangeMap]
  apply filterMapRange_single _ _ (i + 1) _ hii
  · have h1 : nInitF (i + 1) (i + 1) = -1 := by
      unfold nInitF; simp
    rw [h1]
    norm_num
  · intro j hj hjk
    have hneg : ¬ nInitF (i + 1) j < 0 := by
      unfold nInitF
      split_ifs <;> omega
    rw [if_neg hneg]

@[simp] theorem VasProperty_mk_variable_index (a : Nat) (b : Int) :
    (VasProperty.mk a b).variable_index = a := rfl
@[simp] theorem VasProperty_mk_target_value (a : Nat) (b : Int) :
    (VasProperty.mk a b).target_value = b := rfl
@[simp] theorem artT_name : artT.transition_name = "ARTIFICIAL" := by
  unfold artT; with_reducible rfl

/-- The candidate scan for the negative target on `v_{i+1}`: only `t_{i+1}`
produces that variable, every earlier transition is blocked by the ancestor
chain or the sign test, and the admitted child is exactly the next chain
node. -/
theorem chain_scan (i : Nat) (hi1 : i + 1 < chainN) :
    chainTs.filterMap
        (fun trans => candidateChild (chainNode i) ⟨nInitL (i + 1)⟩ ⟨i + 1, 1⟩ trans)
      = [chainNode (i + 1)] := by
  have hnv : i + 1 < chainNumVars := by
    have := chainLt; omega
  unfold chainTs
  rw [List.filterMap_map]
  apply filterMapRange_single _ _ (i + 1) _ hi1
  · -- the hit at t_{i+1}
    simp only [Function.comp_apply]
    unfold candidateChild
    have hall : ∀ p ∈ (chainNode i).parents,
        p.transition_name ≠ (chainT (i + 1)).transition_name := by
      intro p hp
      rw [chainNode_parents] at hp
      rcases List.mem_cons.mp hp with hart | hmem
      · subst hart
        rw [artT_name, chainT_name]
        exact artificial_ne_chainName (i + 1)
      · obtain ⟨k, hk, hpk⟩ := List.mem_map.mp hmem
        rw [List.mem_range] at hk
        subst hpk
        rw [chainT_name, chainT_name]
        intro hcontra
        have := chainName_inj hcontra
        omega
    rw [if_pos hall]
    have hupd : (chainT (i + 1)).update_vector.getD (i + 1) 0 = 1 := by
      rw [chainT_update, chainUpd_getD _ _ hnv]
      unfold chainUpdF; simp
    have hsign : ((⟨i + 1, (1 : Int)⟩ : VasProperty).target_value > 0
          ∧ (chainT (i + 1)).update_vector.getD
              (⟨i + 1, (1 : Int)⟩ : VasProperty).variable_index 0 > 0)
        ∨ ((⟨i + 1, (1 : Int)⟩ : VasProperty).target_value < 0
          ∧ (chainT (i + 1)).update_vector.getD
              (⟨i + 1, (1 : Int)⟩ : VasProperty).variable_index 0 < 0) := by
      left
      constructor
      · norm_num
      · simp only [VasProperty_mk_variable_index, hupd]
        norm_num
    rw [if_pos hsign]
    simp only [VasProperty_mk_variable_index, VasProperty_mk_target_value, hupd]
    norm_num
    unfold chainNode
    rw [List.range_succ, List.map_append, List.map_cons, List.map_nil]
  · -- every other transition is rejected
    intro j hj hjk
    simp only [Function.comp_apply]
    unfold candidateChild
    by_cases hp : ∀ p ∈ (chainNode i).parents,
        p.transition_name ≠ (chainT j).transition_name
    · rw [if_pos hp, if_neg]
      intro hcon
      have hnvj : i + 1 < chainNumVars := hnv
      rcases hcon with ⟨h1, h2⟩ | ⟨h1, h2⟩
      · rw [VasProperty_mk_variable_index, chainT_update, chainUpd_getD _ _ hnvj] at h2
        unfold chainUpdF at h2
        split_ifs at h2 <;> omega
      · rw [VasProperty_mk_target_value] at h1
        omega
    · rw [if_neg hp]

@[simp] theorem chainVas_transitions : chainVas.transitions = chainTs := by
  unfold chainVas; with_reducible rfl

theorem builtChain_enabled (d i : Nat) : (builtChain d i).enabled = false := by
  cases d <;> rfl

/-- Main induction along the chain: with gas `d` (i.e. at source depth
`DEBUG_DEPTH_LIMIT + 1 - d`), building the graph below the `i`-th chain node
succeeds whenever `d > 0`, producing the linear subtree `builtChain d i`,
while at `d = 0` (source depth 5001) the depth guard fires and the node is
returned unchanged.  The recursion from node `i` proceeds exactly through
node `i + 1`. -/
theorem chain_main (d : Nat) : ∀ i, i + d = chainN - 1 →
    recBuildAux chainVas d (chainNode i)
      = ((if d = 0 then
            RustResult.err ("Error: Depth limit exceeded: " ++ toString DEBUG_DEPTH_LIMIT)
          else RustResult.ok ()), builtChain d i) := by
  induction d with
  | zero =>
      intro i hi
      simp [recBuildAux, builtChain]
  | succ d ih =>
      intro i hi
      have hi1 : i + 1 < chainN := by
        have h5 : chainN - 1 = 4999 := by norm_num [chainN]
        omega
      have hnv : i < chainNumVars := by
        have := chainLt; omega
      have hnv1 : i + 1 < chainNumVars := by
        have := chainLt; omega
      simp only [recBuildAux, chainNode_enabled, Bool.false_eq_true, if_false]
      simp only [chain_childInit]
      rw [chain_childTargets i hnv, chain_negativeTargets i hnv1]
      simp only [List.nil_append, List.flatMap_cons, List.flatMap_nil, List.append_nil,
        chainVas_transitions]
      rw [chain_scan i hi1]
      simp only [chainNode_children, List.nil_append, List.foldl_cons, List.foldl_nil,
        mergeInto, List.map_cons, List.map_nil]
      rw [ih (i + 1) (by omega)]
      simp only [builtChain_enabled, List.all_cons, List.all_nil, Bool.false_and,
        Bool.and_false, Bool.and_true]
      rfl

/-- The artificial root node as `make_dependency_graph` creates it for
`chainVas` (before recursion). -/
def chainRoot : GraphNode :=
  GraphNode.mk artT [] [] 1 false ⟨zerosV⟩ [⟨0, 1⟩] false

/-- The root node after construction: the 5000-node chain hangs beneath it. -/
def chainBuiltRoot : GraphNode :=
  GraphNode.mk artT [builtChain 4999 0] [] 1 false ⟨zerosV⟩ [⟨0, 1⟩] false

theorem zerosV_eq : zerosV = (List.range chainNumVars).map (fun _ => (0 : Int)) := by
  unfold zerosV; rw [rangeMap_replicate]

theorem zerosV_getD (j : Nat) (h : j < chainNumVars) : zerosV.getD j 0 = 0 := by
  rw [zerosV_eq]; exact rangeMap_getD _ _ _ _ h

theorem chainVNames_length : chainVNames.length = chainNumVars := by
  unfold chainVNames; simp

@[simp] theorem chainVas_initial : chainVas.initial_states = [⟨zerosV⟩] := by
  unfold chainVas; with_reducible rfl

@[simp] theorem chainVas_target : chainVas.target = ⟨0, 1⟩ := by
  unfold chainVas; with_reducible rfl

@[simp] theorem chainVas_names : chainVas.variable_names = chainVNames := by
  unfold chainVas; with_reducible rfl

@[simp] theorem artT_update : artT.update_vector = zerosV := by
  unfold artT; with_reducible rfl

@[simp] theorem artT_bounds : artT.enabled_bounds = zerosV := by
  unfold artT; with_reducible rfl

theorem chainNumVars_pos : 0 < chainNumVars := by norm_num [chainNumVars]

theorem root_propertySat : propertySat (⟨0, 1⟩ : VasProperty) ⟨zerosV⟩ = .ok false := by
  unfold propertySat
  simp only [VasState_mk_vector, VasProperty_mk_variable_index, VasProperty_mk_target_value]
  have hlen : zerosV.length = chainNumVars := by unfold zerosV; simp
  have h1 : ¬ zerosV.length < 0 := by omega
  have h2 : 0 < zerosV.length := by rw [hlen]; exact chainNumVars_pos
  rw [if_neg h1, dif_pos h2]
  have h3 : zerosV.get ⟨0, h2⟩ = 0 := List.get_replicate 0 _
  rw [h3]
  norm_num

theorem root_childInit : childInitOf chainRoot = ⟨nInitL 0⟩ := by
  unfold chainRoot childInitOf
  simp only [GraphNode.node_init, GraphNode.transition, GraphNode.executions, artT_update,
    artT_bounds, VasState_mk_vector]
  rw [zerosV_eq]
  unfold nInitL
  rw [vops_rangeMap]
  apply congrArg
  apply List.map_congr_left
  intro j hj
  unfold nInitF
  norm_num

theorem root_childTargets : childTargetsOf chainRoot = [⟨0, 1⟩] := by
  unfold chainRoot childTargetsOf
  simp only [GraphNode.node_target, GraphNode.decrement, GraphNode.transition,
    GraphNode.executions, artT_update]
  rw [filterMap_singleton]
  simp only [VasProperty_mk_variable_index, VasProperty_mk_target_value]
  rw [zerosV_getD 0 chainNumVars_pos]
  norm_num

theorem root_negativeTargets : negativeTargetsOf ⟨nInitL 0⟩ = [] := by
  unfold nInitL
  rw [negativeTargets_rangeMap]
  apply filterMapRange_none
  intro j hj
  have hneg : ¬ nInitF 0 j < 0 := by unfold nInitF; norm_num
  rw [if_neg hneg]

theorem chainN_pos : 0 < chainN := by norm_num [chainN]

theorem root_scan :
    chainTs.filterMap (fun trans => candidateChild chainRoot ⟨nInitL 0⟩ ⟨0, 1⟩ trans)
      = [chainNode 0] := by
  unfold chainTs
  rw [List.filterMap_map]
  apply filterMapRange_single _ _ 0 _ chainN_pos
  · simp only [Function.comp_apply]
    unfold candidateChild
    have hall : ∀ p ∈ chainRoot.parents,
        p.transition_name ≠ (chainT 0).transition_name := by
      intro p hp
      simp [chainRoot, GraphNode.parents] at hp
    rw [if_pos hall]
    have hupd : (chainT 0).update_vector.getD 0 0 = 1 := by
      rw [chainT_update, chainUpd_getD _ _ chainNumVars_pos]
      unfold chainUpdF; simp
    have hsign : ((⟨0, (1 : Int)⟩ : VasProperty).target_value > 0
          ∧ (chainT 0).update_vector.getD
              (⟨0, (1 : Int)⟩ : VasProperty).variable_index 0 > 0)
        ∨ ((⟨0, (1 : Int)⟩ : VasProperty).target_value < 0
          ∧ (chainT 0).update_vector.getD
              (⟨0, (1 : Int)⟩ : VasProperty).variable_index 0 < 0) := by
      left
      refine ⟨by norm_num, ?_⟩
      simp only [VasProperty_mk_variable_index, hupd]
      norm_num
    rw [if_pos hsign]
    simp only [VasProperty_mk_variable_index, VasProperty_mk_target_value, hupd]
    norm_num
    unfold chainRoot chainNode
    simp [GraphNode.parents, GraphNode.transition]
  · intro j hj hjk
    simp only [Function.comp_apply]
    unfold candidateChild
    by_cases hp : ∀ p ∈ chainRoot.parents,
        p.transition_name ≠ (chainT j).transition_name
    · rw [if_pos hp, if_neg]
      intro hcon
      rcases hcon with ⟨h1, h2⟩ | ⟨h1, h2⟩
      · rw [VasProperty_mk_variable_index, chainT_update,
          chainUpd_getD _ _ chainNumVars_pos] at h2
        unfold chainUpdF at h2
        split_ifs at h2 <;> omega
      · rw [VasProperty_mk_target_value] at h1
        omega
    · rw [if_neg hp]

/-- Building from the artificial root at source depth 1 (gas 5000) succeeds
and produces the full 5001-node tree.  The gas below the root is kept
abstract during the unfolding so that `simp` rewrites the outer call only. -/
theorem root_rec_aux (g : Nat) (hg : g = 4999) :
    recBuildAux chainVas (g + 1) chainRoot = (.ok (), chainBuiltRoot) := by
  simp only [recBuildAux]
  have hen : chainRoot.enabled = false := rfl
  simp only [hen, Bool.false_eq_true, if_false]
  simp only [root_childInit]
  rw [root_childTargets, root_negativeTargets]
  simp only [List.append_nil, List.flatMap_cons, List.flatMap_nil, chainVas_transitions]
  rw [root_scan]
  have hch : chainRoot.children = [] := rfl
  simp only [hch, List.nil_append, List.append_nil, List.foldl_cons, List.foldl_nil,
    mergeInto, List.map_cons, List.map_nil]
  rw [hg, chain_main 4999 0 (by norm_num [chainN])]
  simp only [builtChain_enabled, List.all_cons, List.all_nil, Bool.and_false, Bool.and_true]
  rfl

theorem root_rec : recBuildAux chainVas (4999 + 1) chainRoot = (.ok (), chainBuiltRoot) :=
  root_rec_aux 4999 rfl

theorem c4_make : makeDependencyGraph chainVas = .ok (some ⟨chainBuiltRoot⟩) := by
  unfold makeDependencyGraph
  simp only [chainVas_initial, VasState_mk_vector, chainVas_target, root_propertySat,
    VasProperty_mk_variable_index, VasProperty_mk_target_value]
  rw [zerosV_getD 0 chainNumVars_pos]
  norm_num
  simp only [chainVas_names, chainVNames_length]
  have hz : List.replicate chainNumVars (0 : Int) = zerosV := rfl
  rw [hz]
  simp only [GraphNode.decrement, Bool.false_eq_true, if_false]
  have hroot : (GraphNode.mk ⟨usizeMax, "ARTIFICIAL", zerosV, zerosV, 0⟩
      [] [] 1 false ⟨zerosV⟩ [⟨0, 1⟩] false) = chainRoot := by
    unfold chainRoot artT
    rfl
  rw [hroot]
  unfold recBuildGraph
  have hgas : DEBUG_DEPTH_LIMIT + 1 - 1 = 4999 + 1 := by norm_num [DEBUG_DEPTH_LIMIT]
  rw [hgas, root_rec]

theorem GraphNode.height_nil (t : VasTransition) (p : List VasTransition) (e : Int) (en : Bool)
    (ni : VasState) (nt : List VasProperty) (dec : Bool) :
    (GraphNode.mk t [] p e en ni nt dec).height = 1 := by
  rw [GraphNode.height]
  simp

theorem GraphNode.height_single (t : VasTransition) (c : GraphNode) (p : List VasTransition)
    (e : Int) (en : Bool) (ni : VasState) (nt : List VasProperty) (dec : Bool) :
    (GraphNode.mk t [c] p e en ni nt dec).height = 1 + c.height := by
  rw [GraphNode.height]
  simp [List.attach, List.attachWith]

theorem builtChain_height (d : Nat) : ∀ i, (builtChain d i).height = d + 1 := by
  induction d with
  | zero =>
      intro i
      show (chainNode i).height = 1
      unfold chainNode
      exact GraphNode.height_nil _ _ _ _ _ _ _
  | succ d ih =>
      intro i
      unfold builtChain
      rw [GraphNode.height_single, ih (i + 1)]
      omega

theorem chainBuiltRoot_height : chainBuiltRoot.height = 5001 := by
  unfold chainBuiltRoot
  rw [GraphNode.height_single, builtChain_height 4999 0]

/-- C4: refuted.  On `chainVas` the recursive expansion reaches source depth
5001 (the built tree has a 5001-node chain, and the deepest recursive call -
gas 0, i.e. depth 5001 - returns the depth-limit error), yet
`make_dependency_graph` still returns `Ok` with the partially built graph,
because both `rec_build_graph` call sites discard the returned `Result`
(`let _ = ...`). -/
theorem c4_counterexample :
    recBuildAux chainVas 0 (chainNode 4999)
        = (.err "Error: Depth limit exceeded: 5000", chainNode 4999)
    ∧ makeDependencyGraph chainVas = .ok (some ⟨chainBuiltRoot⟩)
    ∧ DEBUG_DEPTH_LIMIT < chainBuiltRoot.height := by
  refine ⟨?_, c4_make, ?_⟩
  · have h := chain_main 0 4999 (by norm_num [chainN])
    simpa using h
  · rw [chainBuiltRoot_height]
    norm_num [DEBUG_DEPTH_LIMIT]

/-- C4 (amended): `make_dependency_graph` never returns the depth-limit
error, whatever the model: its only error returns are the initially-satisfied
and cannot-check-property messages, and the result of `rec_build_graph` is
discarded. -/
theorem c4_no_depth_error (vas : AbstractVas) :
    makeDependencyGraph vas
      ≠ .err ("Error: Depth limit exceeded: " ++ toString DEBUG_DEPTH_LIMIT) := by
  unfold makeDependencyGraph
  cases hi : vas.initial_states with
  | nil => simp
  | cons s0 rest =>
      cases hp : propertySat vas.target ⟨s0.vector⟩ with
      | ok b =>
          cases b
          · simp only [hp]
            intro hcontra
            exact RustResult.noConfusion hcontra
          · simp only [hp]
            intro hcontra
            have h2 := RustResult.err.inj hcontra
            revert h2
            decide
      | err e =>
          simp only [hp]
          intro hcontra
          have h2 := RustResult.err.inj hcontra
          revert h2
          decide
      | panicked =>
          simp only [hp]
          intro hcontra
          exact RustResult.noConfusion hcontra

/-! ## Reward-guided trace generator (`src/builder/ragtimer/rl_traces.rs`)

`MagicNumbers` as in `ragtimer.rs`; rewards (`f64`) are modelled as `Rat`.
`f64::ln` has no exact rational counterpart, so `update_rewards` is
parametrised by the logarithm as an oracle `ln : Rat → Rat`; none of the
properties proved below depend on its values. -/

structure MagicNumbers where
  num_traces : Nat
  dependency_reward : Rat
  base_reward : Rat
  trace_reward : Rat
  smallest_history_window : Nat
  clamp : Rat
deriving DecidableEq, Repr

/-- The window-size computation of `update_rewards` (rl_traces.rs:93-98):
the whole history while it is shorter than `smallest_history_window`,
otherwise `ceil(0.2 × history_len)`, floored at 1.  (`0.2` is exactly `1/5`
here; for every feasible history length the `f64` computation
`((len as f64) * 0.2).ceil()` agrees with the exact rational ceiling, since
the accumulated rounding error is far below the distance to the next
integer.) -/
def updateWindowSize (shw len : Nat) : Nat :=
  (if len < shw then len else (len + 4) / 5).max 1

/-- `(len + 4) / 5` is exactly the rational ceiling `⌈len / 5⌉ = ⌈0.2·len⌉`
(the `Nat` form keeps the definition kernel-computable). -/
theorem windowCeil_eq (n : Nat) : (n + 4) / 5 = Nat.ceil ((n : Rat) * (1/5)) := by
  have h5 : ((n : Rat)) * (1/5) = (n : Rat) / 5 := by ring
  rw [h5]
  rcases Nat.eq_zero_or_pos n with h0 | hpos
  · subst h0; norm_num
  · symm
    rw [Nat.ceil_eq_iff (by omega)]
    constructor
    · rw [lt_div_iff (by norm_num : (0 : Rat) < 5)]
      have hm : ((n + 4) / 5 - 1) * 5 < n := by omega
      exact_mod_cast hm
    · rw [div_le_iff (by norm_num : (0 : Rat) < 5)]
      have hm : n ≤ ((n + 4) / 5) * 5 := by omega
      exact_mod_cast hm

/-- The slice of the probability history whose mean feeds the log-ratio
(rl_traces.rs:99-100): the last `window_size` entries
(`saturating_sub` is truncated `Nat` subtraction). -/
def recentProbs (mn : MagicNumbers) (hist : List Rat) : List Rat :=
  hist.drop (hist.length - updateWindowSize mn.smallest_history_window hist.length)

/-- `rewards.get_mut(&id)`-style additive update on an association list: adds
`d` to the entry if the key is present, otherwise only an error is logged and
nothing changes. -/
def addToEntry : List (Nat × Rat) → Nat → Rat → List (Nat × Rat)
  | [], _, _ => []
  | (k, v) :: rest, tid, d =>
      if k = tid then (k, v + d) :: rest else (k, v) :: addToEntry rest tid d

/-- `RagtimerBuilder::update_rewards`. -/
def updateRewards (mn : MagicNumbers) (ln : Rat → Rat) (rewards : List (Nat × Rat))
    (trace : List Nat) (hist : List Rat) : List (Nat × Rat) :=
  let latest := hist.getLast?.getD 0
  if trace.length = 0 ∨ latest ≤ 0 then rewards
  else
    let recent := recentProbs mn hist
    let avg : Rat := if recent.length ≠ 0 then recent.sum / (recent.length : Rat) else 0
    let logRatio := if avg > 0 ∧ latest > 0 then ln (latest / avg) else 0
    let traceReward := (min (max logRatio (-mn.clamp)) mn.clamp)
      / (trace.length : Rat) * mn.trace_reward
    trace.foldl (fun rw tid => addToEntry rw tid traceReward) rewards

/-- The default magic numbers of `default_magic_numbers`
(`smallest_history_window = 50`). -/
def defaultMagic : MagicNumbers :=
  { num_traces := 100, dependency_reward := 1, base_reward := 1/10,
    trace_reward := 1/100, smallest_history_window := 50, clamp := 10 }

def c7Hist : List Rat := List.replicate 50 (1/2)

/-- C7 counterexample: at a history of length 50 with
`smallest_history_window = 50`, the code's window is `ceil(0.2 × 50) = 10`,
not `max(50, 10) = 50` as the claim states, and the mean is taken over only
the 10 most recent entries. -/
theorem c7_window_counterexample :
    updateWindowSize defaultMagic.smallest_history_window c7Hist.length = 10
    ∧ (recentProbs defaultMagic c7Hist).length = 10
    ∧ updateWindowSize defaultMagic.smallest_history_window c7Hist.length
        ≠ max defaultMagic.smallest_history_window
            (Nat.ceil ((c7Hist.length : Rat) * (1/5))) := by
  refine ⟨by decide, by decide, ?_⟩
  rw [← windowCeil_eq]
  decide

/-- C7 (amended): the mean feeding the log-ratio is computed over the most
recent `w` entries where `w = len` when `len < smallest_history_window` and
`w = max(1, ceil(0.2 × len))` otherwise; in particular for
`smallest_history_window ≤ len < 5 × smallest_history_window` the window is
smaller than `smallest_history_window`, not floored at it. -/
theorem c7_window_amended (mn : MagicNumbers) (hist : List Rat) (h : 1 ≤ hist.length) :
    recentProbs mn hist
        = hist.drop (hist.length - updateWindowSize mn.smallest_history_window hist.length)
    ∧ (recentProbs mn hist).length
        = updateWindowSize mn.smallest_history_window hist.length
    ∧ (hist.length < mn.smallest_history_window →
        updateWindowSize mn.smallest_history_window hist.length = hist.length)
    ∧ (mn.smallest_history_window ≤ hist.length →
        updateWindowSize mn.smallest_history_window hist.length
          = max 1 (Nat.ceil ((hist.length : Rat) * (1/5)))) := by
  rw [← windowCeil_eq]
  have hwle : updateWindowSize mn.smallest_history_window hist.length ≤ hist.length := by
    unfold updateWindowSize
    by_cases hc : hist.length < mn.smallest_history_window
    · rw [if_pos hc]
      simp only [Nat.max_def]
      split_ifs <;> omega
    · rw [if_neg hc]
      simp only [Nat.max_def]
      split_ifs <;> omega
  refine ⟨rfl, ?_, ?_, ?_⟩
  · unfold recentProbs
    rw [List.length_drop]
    omega
  · intro hlt
    unfold updateWindowSize
    rw [if_pos hlt]
    simp only [Nat.max_def]
    split_ifs <;> omega
  · intro hge
    unfold updateWindowSize
    rw [if_neg (by omega)]
    simp only [Nat.max_def]
    split_ifs <;> omega

/-- C7 witness for the amended statement: the concrete 50-entry history. -/
theorem c7_window_amended_witness :
    1 ≤ c7Hist.length
    ∧ (recentProbs defaultMagic c7Hist
        = c7Hist.drop (c7Hist.length
            - updateWindowSize defaultMagic.smallest_history_window c7Hist.length)
      ∧ (recentProbs defaultMagic c7Hist).length
          = updateWindowSize defaultMagic.smallest_history_window c7Hist.length
      ∧ (c7Hist.length < defaultMagic.smallest_history_window →
          updateWindowSize defaultMagic.smallest_history_window c7Hist.length
            = c7Hist.length)
      ∧ (defaultMagic.smallest_history_window ≤ c7Hist.length →
          updateWindowSize defaultMagic.smallest_history_window c7Hist.length
            = max 1 (Nat.ceil ((c7Hist.length : Rat) * (1/5))))) :=
  ⟨by decide, c7_window_amended defaultMagic c7Hist (by decide)⟩

/-! ## BMC encoding (`src/bmc/encoding.rs`, `src/bmc/vas_bmc.rs`,
`src/bmc/bounds.rs`)

Z3 bit-vector terms and boolean formulas are embedded syntactically.  The
source keys solver variables by distinct variable *names*; here they are
keyed by variable *index*, which is equivalent for models with distinct
names.  `tv i t` is the time-indexed variable `v@t` produced by the
unroller.  Satisfiability is semantic: some assignment of `2^bits`-bit

values makes the formula evaluate true.  The SMT solver is a parameter
`sat : Z3Bool → Bool`; soundness (`sat f = true → Satisfiable f`) is the
only property of Z3 the theorems below rely on. -/

inductive BVVar where
  | cur (i : Nat)
  | next (i : Nat)
  | tv (i t : Nat)
deriving DecidableEq

inductive BVTerm where
  | var (v : BVVar)
  | const (n : Nat)
  | add (a b : BVTerm)
  | sub (a b : BVTerm)
deriving DecidableEq

inductive Z3Bool where
  | eqB (a b : BVTerm)
  | uge (a b : BVTerm)
  | conj (l : List Z3Bool)
  | disj (l : List Z3Bool)

/-- `ast::BV::from_i64`: the two's-complement value of `x` at the given
width. -/
def fromI64 (x : Int) (bits : Nat) : Nat := (x % ((2 : Int) ^ bits)).toNat

/-- Bit-vector term evaluation; every value is reduced modulo `2^bits`
(`bvadd`/`bvsub` wrap around). -/
def evalT (bits : Nat) (f : BVVar → Nat) : BVTerm → Nat
  | .var v => f v % 2 ^ bits
  | .const n => n % 2 ^ bits
  | .add a b => (evalT bits f a + evalT bits f b) % 2 ^ bits
  | .sub a b => (evalT bits f a + (2 ^ bits - evalT bits f b)) % 2 ^ bits

mutual
def evalB (bits : Nat) (f : BVVar → Nat) : Z3Bool → Bool
  | .eqB a b => evalT bits f a = evalT bits f b
  | .uge a b => evalT bits f a ≥ evalT bits f b
  | .conj l => evalConj bits f l
  | .disj l => evalDisj bits f l
def evalConj (bits : Nat) (f : BVVar → Nat) : List Z3Bool → Bool
  | [] => true
  | x :: xs => evalB bits f x && evalConj bits f xs
def evalDisj (bits : Nat) (f : BVVar → Nat) : List Z3Bool → Bool
  | [] => false
  | x :: xs => evalB bits f x || evalDisj bits f xs
end

/-- `Unroller::at_time` on terms: substitute `current ↦ v@k`,
`next ↦ v@(k+1)`. -/
def atTimeT (k : Nat) : BVTerm → BVTerm
  | .var (.cur i) => .var (.tv i k)
  | .var (.next i) => .var (.tv i (k + 1))
  | .var (.tv i t) => .var (.tv i t)
  | .const n => .const n
  | .add a b => .add (atTimeT k a) (atTimeT k b)
  | .sub a b => .sub (atTimeT k a) (atTimeT k b)

mutual
def atTimeB (k : Nat) : Z3Bool → Z3Bool
  | .eqB a b => .eqB (atTimeT k a) (atTimeT k b)
  | .uge a b => .uge (atTimeT k a) (atTimeT k b)
  | .conj l => .conj (atTimeL k l)
  | .disj l => .disj (atTimeL k l)
def atTimeL (k : Nat) : List Z3Bool → List Z3Bool
  | [] => []
  | x :: xs => atTimeB k x :: atTimeL k xs
end

def Satisfiable (bits : Nat) (f : Z3Bool) : Prop :=
  ∃ σ : BVVar → Nat, evalB bits σ f = true

/-- The solver oracle answers `true` only on satisfiable formulas. -/
def SoundSat (bits : Nat) (sat : Z3Bool → Bool) : Prop :=
  ∀ f, sat f = true → Satisfiable bits f

/-- The per-transition constraint of `BMCEncoding::from_vas`
(encoding.rs:55-102): per index, the frame equality when both update and
bound are zero; otherwise the `bvuge` guard when the bound is positive,
followed by `next = current bvadd update` for production and
`next = current bvsub update` for consumption — where the *signed* update is
passed through `from_i64`, so a negative update subtracts its
two's-complement encoding `2^bits - |u|`. -/
def transitionConstraint (bits : Nat) (t : VasTransition) : Z3Bool :=
  .conj ((List.range t.update_vector.length).flatMap (fun i =>
    let u := t.update_vector.getD i 0
    let b := t.enabled_bounds.getD i 0
    if u = 0 ∧ b = 0 then [.eqB (.var (.next i)) (.var (.cur i))]
    else
      (if b > 0 then [.uge (.var (.cur i)) (.const (fromI64 b bits))] else [])
      ++ [if u > 0 then
            .eqB (.var (.next i)) (.add (.var (.cur i)) (.const (fromI64 u bits)))
          else
            .eqB (.var (.next i)) (.sub (.var (.cur i)) (.const (fromI64 u bits)))]))

structure BMCEncoding where
  init_formula : Z3Bool
  target_formula : Z3Bool
  transition_formula : Z3Bool

/-- `BMCEncoding::from_vas`. -/
def fromVas (model : AbstractVas) (bits : Nat) : BMCEncoding :=
  { init_formula := .conj ((List.range model.variable_names.length).map (fun i =>
      .eqB (.var (.cur i))
        (.const (fromI64 ((model.initial_states.headD ⟨[]⟩).vector.getD i 0) bits))))
    target_formula := .eqB (.var (.cur model.target.variable_index))
      (.const (fromI64 model.target.target_value bits))
    transition_formula := .disj (model.transitions.map (transitionConstraint bits)) }

def MAX_BMC_STEPS : Nat := 1000
def NUM_BITS : Nat := 9

/-- The loop of `run_bmc` (encoding.rs:142-162): `ks` is the remaining list
of time indices, `maxK` is the last `k` seen.  On SAT the target at time `k`
is conjoined and the loop breaks; otherwise the transition relation at time
`k` is conjoined and the loop continues.  When the loop exhausts `ks`
without any SAT answer, the pair `(formula, maxK)` with
`maxK = max_steps - 1` is returned — indistinguishable from a first SAT hit
at the final step. -/
def runBmcAux (sat : Z3Bool → Bool) (trans target : Z3Bool) :
    List Nat → Z3Bool → Nat → Z3Bool × Nat
  | [], formula, maxK => (formula, maxK)
  | k :: rest, formula, _ =>
      let stepFormula := Z3Bool.conj [formula, atTimeB k target]
      if sat stepFormula then (Z3Bool.conj [formula, atTimeB k target], k)
      else runBmcAux sat trans target rest (Z3Bool.conj [formula, atTimeB k trans]) k

/-- `BMCEncoding::run_bmc`. -/
def runBmc (sat : Z3Bool → Bool) (model : AbstractVas) (bits maxSteps : Nat) :
    Z3Bool × Nat :=
  let enc := fromVas model bits
  runBmcAux sat enc.transition_formula enc.target_formula
    (List.range maxSteps) (atTimeB 0 enc.init_formula) 0

/-- The abort guard of `BMCBounds::from_encoding` (bounds.rs:37-41):
`panic!` fires iff `steps == 0 || steps >= MAX_BMC_STEPS`. -/
def fromEncodingPanics (steps : Nat) : Bool :=
  steps == 0 || decide (steps ≥ MAX_BMC_STEPS)

/-- A model whose target is unreachable: one variable `A` initially 0, no
transitions, target `A = 5`.  Every BMC query on it is unsatisfiable. -/
def c2Model : AbstractVas :=
  { variable_names := ["A"]
    initial_states := [⟨[0]⟩]
    transitions := []
    target := ⟨0, 5⟩ }

theorem getLastD_cons (k m : Nat) (rest : List Nat) :
    (k :: rest).getLast?.getD m = rest.getLast?.getD k := by
  induction rest generalizing k m with
  | nil => rfl
  | cons a t ih =>
      rw [List.getLast?_cons_cons]
      rw [ih a m, ih a k]

/-- Once the running formula is unsatisfiable, a sound solver answers UNSAT
forever, so the loop runs to exhaustion and returns the last time index. -/
theorem runBmcAux_all_unsat (bits : Nat) (sat : Z3Bool → Bool) (hsound : SoundSat bits sat)
    (trans target : Z3Bool) :
    ∀ (ks : List Nat) (formula : Z3Bool) (maxK : Nat),
      (∀ σ, evalB bits σ formula = false) →
      (runBmcAux sat trans target ks formula maxK).2 = ks.getLast?.getD maxK := by
  intro ks
  induction ks with
  | nil => intro formula maxK h; rfl
  | cons k rest ih =>
      intro formula maxK h
      have hq : ∀ σ, evalB bits σ (Z3Bool.conj [formula, atTimeB k target]) = false := by
        intro σ
        simp [evalB, evalConj, h σ]
      have hs : sat (Z3Bool.conj [formula, atTimeB k target]) = false := by
        cases hcs : sat (Z3Bool.conj [formula, atTimeB k target]) with
        | false => rfl
        | true =>
            obtain ⟨σ, hσ⟩ := hsound _ hcs
            rw [hq σ] at hσ
            exact absurd hσ (by simp)
      simp only [runBmcAux, hs, Bool.false_eq_true, if_false]
      rw [ih _ k (fun σ => by simp [evalB, evalConj, h σ])]
      rw [getLastD_cons]

theorem c2_encoding : fromVas c2Model 9
    = ⟨Z3Bool.conj [.eqB (.var (.cur 0)) (.const 0)],
       .eqB (.var (.cur 0)) (.const 5), .disj []⟩ := rfl

/-- C2: refuted.  On `c2Model` every query `formula ∧ target@k` is
unsatisfiable, so any sound solver drives `run_bmc` through all 1000
iterations; the loop then returns `max_k = 999 = MAX_BMC_STEPS - 1`, and the
abort guard of `BMCBounds::from_encoding`
(`steps == 0 || steps >= MAX_BMC_STEPS`) does not fire: the bounding engine
does not fail fatally, and the returned `k` is not a satisfiable depth. -/
theorem c2_bmc_exhaustion (sat : Z3Bool → Bool) (hsound : SoundSat 9 sat) :
    (runBmc sat c2Model NUM_BITS MAX_BMC_STEPS).2 = MAX_BMC_STEPS - 1
    ∧ fromEncodingPanics (runBmc sat c2Model NUM_BITS MAX_BMC_STEPS).2 = false := by
  have hrun : (runBmc sat c2Model NUM_BITS MAX_BMC_STEPS).2 = 999 := by
    unfold runBmc NUM_BITS MAX_BMC_STEPS
    rw [c2_encoding]
    have h1000 : List.range 1000 = 0 :: (List.range 999).map Nat.succ := by
      rw [show (1000 : Nat) = 999 + 1 from rfl, List.range_succ_eq_map]
    rw [h1000]
    have hq0 : ∀ σ, evalB 9 σ (Z3Bool.conj
        [atTimeB 0 (Z3Bool.conj [.eqB (.var (.cur 0)) (.const 0)]),
         atTimeB 0 (Z3Bool.eqB (.var (.cur 0)) (.const 5))]) = false := by
      intro σ
      by_contra hcon
      have htrue := (Bool.not_eq_false _).mp hcon
      simp [evalB, evalConj, evalT, atTimeB, atTimeL, atTimeT] at htrue
      omega
    have hs0 : sat (Z3Bool.conj
        [atTimeB 0 (Z3Bool.conj [.eqB (.var (.cur 0)) (.const 0)]),
         atTimeB 0 (Z3Bool.eqB (.var (.cur 0)) (.const 5))]) = false := by
      cases hcs : sat _ with
      | false => rfl
      | true =>
          obtain ⟨σ, hσ⟩ := hsound _ hcs
          rw [hq0 σ] at hσ
          exact absurd hσ (by simp)
    generalize hrest : (List.range 999).map Nat.succ = rest
    simp only [runBmcAux, hs0, Bool.false_eq_true, if_false]
    rw [runBmcAux_all_unsat 9 sat hsound _ _ _ _ 0
      (fun σ => by simp [evalB, evalConj, evalDisj, atTimeB, atTimeL])]
    rw [← hrest]
    have h999 : List.range 999 = List.range 998 ++ [998] := by
      rw [show (999 : Nat) = 998 + 1 from rfl, List.range_succ]
    rw [h999, List.map_append, List.map_cons, List.map_nil, List.getLast?_concat]
    rfl
  refine ⟨?_, ?_⟩
  · rw [hrun]; rfl
  · rw [hrun]; rfl

/-- C2 witness: the trivially sound always-UNSAT solver. -/
theorem c2_bmc_exhaustion_witness :
    SoundSat 9 (fun _ => false)
    ∧ ((runBmc (fun _ => false) c2Model NUM_BITS MAX_BMC_STEPS).2 = MAX_BMC_STEPS - 1
      ∧ fromEncodingPanics
          (runBmc (fun _ => false) c2Model NUM_BITS MAX_BMC_STEPS).2 = false) :=
  ⟨fun _ h => absurd h (by simp),
    c2_bmc_exhaustion (fun _ => false) (fun _ h => absurd h (by simp))⟩

/-- A transition consuming one unit of the sole variable:
`update = [-1]`, `enabled_bounds = [1]`. -/
def c3Trans : VasTransition := ⟨0, "t", [-1], [1], 1⟩

/-- Assignment `current = 5, next = 6` (what the claim forbids for a
consumption step). -/
def c3SigmaInc : BVVar → Nat
  | .cur 0 => 5
  | .next 0 => 6
  | _ => 0

/-- Assignment `current = 5, next = 4` (what the claim mandates:
`next = current − |update|`). -/
def c3SigmaDec : BVVar → Nat
  | .cur 0 => 5
  | .next 0 => 4
  | _ => 0

/-- C3: refuted for consumption.  `from_i64(-1, 9)` is the two's-complement
value `511`, and the encoded constraint is `next = current bvsub 511`, i.e.
`next ≡ current + 1 (mod 512)`: the state `current = 5, next = 6` satisfies
the encoded transition constraint while `current = 5, next = 4` (the
behaviour the claim states) falsifies it. -/
theorem c3_negative_update_encoding :
    fromI64 (-1) 9 = 511
    ∧ transitionConstraint 9 c3Trans
        = .conj [.uge (.var (.cur 0)) (.const 1),
            .eqB (.var (.next 0)) (.sub (.var (.cur 0)) (.const 511))]
    ∧ evalB 9 c3SigmaInc (transitionConstraint 9 c3Trans) = true
    ∧ evalB 9 c3SigmaDec (transitionConstraint 9 c3Trans) = false := by
  refine ⟨by decide, by rfl, by decide, by decide⟩

/-! ## Cycle & commute (`src/cycle_commute/commute.rs`)

The explicit-state-space builder: a seed walk over the traces of a trace
file, a commuting expansion, combinatorial cycle closure, and a final loop
adding one edge per non-sink state to the absorbing SINK state (index 0).
File/visualisation output is not modelled.  The `error!` + `return` paths of
the seed walk are modelled by `Option`. -/

/-- `MAX_DEPTH` (`commute.rs:23`). -/
def MAX_DEPTH : Nat := 2

/-- `MAX_CYCLE_LENGTH` (`commute.rs:24`). -/
def MAX_CYCLE_LENGTH : Nat := 2

/-- `PrismStyleExplicitState` (`commute.rs:29-38`). -/
structure PrismStyleExplicitState where
  state_vector : VasStateVector
  total_rate : Rat
  label : String
  next_states : List Nat
deriving DecidableEq, Repr

/-- `PrismStyleExplicitTransition` (`commute.rs:60-67`). -/
structure PrismStyleExplicitTransition where
  from_state : Nat
  to_state : Nat
  rate : Rat
deriving DecidableEq, Repr

/-- Junk row standing for Rust's panic on out-of-bounds indexing of
`prism_states`; every index dereferenced in the runs studied below is in
bounds, so this value is never produced there. -/
def defaultPrismState : PrismStyleExplicitState := ⟨[], 0, "", []⟩

/-- Junk edge standing for the panic of `trace[0]` on an empty trace;
`commute` is only invoked below on non-empty traces. -/
def defaultPrismTransition : PrismStyleExplicitTransition := ⟨0, 0, 0⟩

/-- Junk transition for `model.transitions[idx]` out of bounds (a panic in
Rust); all indices used below come from `0..transitions.len()`. -/
def defaultVasTransition : VasTransition := ⟨0, "", [], [], 0⟩

/-- `VasTransition::get_sck_rate` (`commute.rs:77-85`): `rate_const` times the
product of the nonzero entries of `enabled_bounds`. -/
def VasTransition.getSckRate (t : VasTransition) : Rat :=
  t.rate_const * ((t.enabled_bounds.filter (fun r => r != 0)).map (fun r => (r : Rat))).prod

/-- The `rate_sum` given to every newly created state (`commute.rs:218-222`
and the two identical computations in `commute` / `add_cycles`): the sum of
SCK rates of all transitions of the model. -/
def rateSum (model : AbstractVas) : Rat :=
  (model.transitions.map (fun t => t.getSckRate)).sum

/-- `AbstractVas::get_transition_from_name` (`vas_model.rs:378-382`). -/
def AbstractVas.getTransitionFromName (m : AbstractVas) (name : String) :
    Option VasTransition :=
  m.transitions.find? (fun t => t.transition_name == name)

/-- In-place update of one list entry (the `prism_states[i].next_states.push`
pattern).  Rust panics out of bounds; every use below is in bounds, where the
out-of-bounds no-op branch is unreachable. -/
def listModify {α : Type} : List α → Nat → (α → α) → List α
  | [], _, _ => []
  | x :: xs, 0, f => f x :: xs
  | x :: xs, n + 1, f => x :: listModify xs n f

/-- The mutable bookkeeping of the seed walk of `cycle_commute`
(`commute.rs:163-167`). -/
structure CCWalkState where
  states : List PrismStyleExplicitState
  transitions : List PrismStyleExplicitTransition
  seed : List PrismStyleExplicitTransition
  trie : VasTrieNode

/-- The bookkeeping shared by `commute` and `add_cycles` (seed trace no
longer grows there). -/
structure CCBuildState where
  states : List PrismStyleExplicitState
  transitions : List PrismStyleExplicitTransition
  trie : VasTrieNode

/-- One iteration of the seed walk (`commute.rs:197-253`): apply the named
transition, insert the successor into the trie under candidate id
`current_state_id + 1` (while a genuinely new state is pushed at index
`states.length`), add the edge unless the current row already lists the
successor, move on.  `none` models the `error!` + `return` paths (unknown
transition name, negative successor entry), which abandon the construction. -/
def walkStep (model : AbstractVas) (st : CCWalkState) (cur : VasStateVector × Nat)
    (name : String) : Option (CCWalkState × (VasStateVector × Nat)) :=
  match model.getTransitionFromName name with
  | none => none
  | some t =>
      let next_state := vadd cur.1 t.update_vector
      let candidate_id := cur.2 + 1
      if next_state.any (fun x => x < 0) then none
      else
        let ins := st.trie.insertIfNotExists next_state candidate_id
        let next_state_id := (ins.1).getD candidate_id
        let states1 :=
          match ins.1 with
          | some _ => st.states
          | none =>
              st.states ++ [⟨next_state, rateSum model, "State " ++ toString cur.2, []⟩]
        if ((states1.get? cur.2).map
              (fun s => !(s.next_states.contains next_state_id))).getD true then
          let e : PrismStyleExplicitTransition := ⟨cur.2, next_state_id, t.getSckRate⟩
          some (⟨listModify states1 cur.2
                  (fun s => { s with next_states := s.next_states ++ [next_state_id] }),
                 st.transitions ++ [e], st.seed ++ [e], ins.2⟩,
                (next_state, next_state_id))
        else
          some (⟨states1, st.transitions, st.seed, ins.2⟩, (next_state, next_state_id))

/-- The loop over one trace's transition names (`commute.rs:197-253`),
threading `(current_state, current_state_id)`. -/
def walkTrace (model : AbstractVas) :
    CCWalkState → VasStateVector × Nat → List String → Option CCWalkState
  | st, _, [] => some st
  | st, cur, n :: ns =>
      match walkStep model st cur n with
      | none => none
      | some (st2, cur2) => walkTrace model st2 cur2 ns

/-- The loop over the trace-file lines (`commute.rs:184-254`): each trace is
replayed from `initial_states[0]` with `current_state_id = 1`.
`initial_states[0]` panics on an empty list; the models below all have an
initial state, making the `headD` default unreachable. -/
def walkAll (model : AbstractVas) : CCWalkState → List (List String) → Option CCWalkState
  | st, [] => some st
  | st, tr :: trs =>
      match walkTrace model st ((model.initial_states.headD ⟨[]⟩).vector, 1) tr with
      | none => none
      | some st2 => walkAll model st2 trs

/-- Setup plus seed walk of `cycle_commute` (`commute.rs:160-254`): the trie
holds the initial state under id 1, the absorbing SINK row sits at index 0
with `total_rate` 0 and all components `-1`. -/
def ccWalkStage (model : AbstractVas) (traces : List (List String)) : Option CCWalkState :=
  let initialVector := (model.initial_states.headD ⟨[]⟩).vector
  let trie0 := ((VasTrieNode.node []).insertIfNotExists initialVector 1).2
  let absorbing : PrismStyleExplicitState :=
    ⟨List.replicate initialVector.length (-1), 0, "SINK", []⟩
  walkAll model ⟨[absorbing], [], [], trie0⟩ traces

/-- The universally-enabled computation of `commute`, exactly as written
(`commute.rs:311-328`): note that `current_state` is reset to the trace's
FIRST state at the top of every loop iteration, so each `retain` filters
against the set enabled at that same first state. -/
def universallyEnabledCode (model : AbstractVas) (states : List PrismStyleExplicitState)
    (trace : List PrismStyleExplicitTransition) : List VasTransition :=
  let initial_state_vector :=
    (states.getD (trace.headD defaultPrismTransition).from_state
      defaultPrismState).state_vector
  let enabled0 := model.transitions.filter (fun t => t.enabledVector initial_state_vector)
  trace.foldl
    (fun ue _t =>
      let current_state := initial_state_vector
      let enabled := model.transitions.filter (fun t => t.enabledVector current_state)
      ue.filter (fun t => enabled.contains t))
    enabled0

/-- The states visited by a trace, read off the state table: the source
state of the first transition followed by the target state of every
transition.  This definition is modelled from the SPEC's words ("enabled at
every state visited by the trace"), for comparison with
`universallyEnabledCode`. -/
def visitedStates (states : List PrismStyleExplicitState)
    (trace : List PrismStyleExplicitTransition) : List VasStateVector :=
  match trace with
  | [] => []
  | e :: _ =>
      (states.getD e.from_state defaultPrismState).state_vector ::
        trace.map (fun e2 => (states.getD e2.to_state defaultPrismState).state_vector)

/-- Spec-side universally enabled set: the transitions of the model enabled
at every state visited by the trace.  Modelled from the SPEC's words, for
comparison with `universallyEnabledCode`. -/
def universallyEnabledSpec (model : AbstractVas) (states : List PrismStyleExplicitState)
    (trace : List PrismStyleExplicitTransition) : List VasTransition :=
  model.transitions.filter
    (fun t => (visitedStates states trace).all (fun v => t.enabledVector v))

/-- `commute` (`commute.rs:296-393`), with `gas = max_depth - depth`: the
base-case guard `depth >= max_depth` is exactly `gas = 0`, and the recursive
call at `depth + 1` is the call at `gas - 1`.  The universally enabled set is
computed once per invocation from the states at entry; the per-step state
vector is read from the LIVE state table (`acc2`). -/
def commuteAux (model : AbstractVas) :
    Nat → List PrismStyleExplicitTransition → CCBuildState → CCBuildState
  | 0, _, st => st
  | g + 1, trace, st =>
      let ue := universallyEnabledCode model st.states trace
      trace.enum.foldl
        (fun acc1 pr =>
          ue.foldl
            (fun acc2 u =>
              let state_id := (pr.2).from_state
              let state_vector := (acc2.states.getD state_id defaultPrismState).state_vector
              let next_state := vadd state_vector u.update_vector
              if next_state.any (fun x => x < 0) then acc2
              else
                let candidate_id := acc2.states.length
                let ins := acc2.trie.insertIfNotExists next_state candidate_id
                let next_state_id := (ins.1).getD candidate_id
                let states1 :=
                  match ins.1 with
                  | some _ => acc2.states
                  | none =>
                      acc2.states ++
                        [⟨next_state, rateSum model,
                          "State " ++ toString candidate_id, []⟩]
                if !((states1.getD state_id defaultPrismState).next_states.contains
                      next_state_id) then
                  let e : PrismStyleExplicitTransition :=
                    ⟨state_id, next_state_id, u.getSckRate⟩
                  let st2 : CCBuildState :=
                    ⟨listModify states1 state_id
                        (fun s => { s with next_states := s.next_states ++ [next_state_id] }),
                      acc2.transitions ++ [e], ins.2⟩
                  let new_trace := trace.take (pr.1 + 1) ++ [e]
                  commuteAux model g new_trace st2
                else
                  ⟨states1, acc2.transitions, ins.2⟩)
            acc1)
        st

/-- The non-empty suffixes of a list, longest first. -/
def nonEmptyTails {α : Type} : List α → List (List α)
  | [] => []
  | x :: xs => (x :: xs) :: nonEmptyTails xs

/-- `itertools::combinations_with_replacement` over a list: all weakly
increasing (by position) selections of `n` elements, in the library's
lexicographic order; a selection of size `n + 1` starts with the head of
some non-empty suffix and continues with a size-`n` selection from that same
suffix. -/
def combosWithRep {α : Type} : Nat → List α → List (List α)
  | 0, _ => [[]]
  | n + 1, l =>
      (nonEmptyTails l).flatMap
        (fun s =>
          match s with
          | [] => []
          | x :: _ => (combosWithRep n s).map (fun c => x :: c))

/-- All ways to insert an element into a list. -/
def insertEverywhere {α : Type} (x : α) : List α → List (List α)
  | [] => [[x]]
  | y :: ys => (x :: y :: ys) :: (insertEverywhere x ys).map (fun l => y :: l)

/-- `itertools::permutations` of a whole list, up to order of enumeration
(the permutation list is deduplicated and then folded over; only its
elements and multiplicities matter to the uses below). -/
def allPerms {α : Type} : List α → List (List α)
  | [] => [[]]
  | x :: xs => (allPerms xs).flatMap (insertEverywhere x)

/-- `itertools::unique`: keep the first occurrence of each element. -/
def uniqueList {α : Type} [DecidableEq α] (l : List α) : List α :=
  l.foldl (fun acc x => if acc.contains x then acc else acc ++ [x]) []

/-- Insertion into a sorted list, and `Vec::sort` on `Nat` indices as
insertion sort (ascending; for `Nat` elements the result coincides with the
source's stable sort). -/
def insertSorted (x : Nat) : List Nat → List Nat
  | [] => [x]
  | y :: ys => if x ≤ y then x :: y :: ys else y :: insertSorted x ys

def sortNat : List Nat → List Nat
  | [] => []
  | x :: xs => insertSorted x (sortNat xs)

/-- Sum of the update vectors of a cycle candidate (`commute.rs:412-415`). -/
def sumUpdateOf (model : AbstractVas) (cycle : List Nat) : VasStateVector :=
  match cycle with
  | [] => []
  | c0 :: rest =>
      rest.foldl
        (fun acc idx =>
          vadd acc (model.transitions.getD idx defaultVasTransition).update_vector)
        (model.transitions.getD c0 defaultVasTransition).update_vector

/-- Elementwise minimum of the prefix sums of a cycle's update vectors
(`commute.rs:439-448`).  Note the source computes it from `cycle` (the
sorted multiset), not from the permutation being fired. -/
def minVectorOf (model : AbstractVas) (cycle : List Nat) : VasStateVector :=
  match cycle with
  | [] => []
  | c0 :: rest =>
      let upd0 := (model.transitions.getD c0 defaultVasTransition).update_vector
      (rest.foldl
        (fun acc idx =>
          let running :=
            vadd acc.2 (model.transitions.getD idx defaultVasTransition).update_vector
          (List.zipWith min acc.1 running, running))
        (upd0, upd0)).1

/-- Accumulator of the permutation-firing loop (`commute.rs:456-506`):
current state vector, previous state id, bookkeeping, and an `alive` flag
modelling `break` on a negative intermediate state. -/
structure FireAcc where
  cur : VasStateVector
  prev : Nat
  st : CCBuildState
  alive : Bool

/-- One iteration of the permutation-firing loop (`commute.rs:459-506`). -/
def fireStep (model : AbstractVas) (acc : FireAcc) (idx : Nat) : FireAcc :=
  if !acc.alive then acc
  else
    let t := model.transitions.getD idx defaultVasTransition
    let next_state := vadd acc.cur t.update_vector
    if next_state.any (fun x => x < 0) then { acc with alive := false }
    else
      let candidate_id := acc.st.states.length
      let ins := acc.st.trie.insertIfNotExists next_state candidate_id
      let next_state_id := (ins.1).getD candidate_id
      let states1 :=
        match ins.1 with
        | some _ => acc.st.states
        | none =>
            acc.st.states ++
              [⟨next_state, rateSum model, "State " ++ toString candidate_id, []⟩]
      let st2 : CCBuildState :=
        if !((states1.getD acc.prev defaultPrismState).next_states.contains next_state_id)
        then
          ⟨listModify states1 acc.prev
              (fun s => { s with next_states := s.next_states ++ [next_state_id] }),
            acc.st.transitions ++ [⟨acc.prev, next_state_id, t.getSckRate⟩], ins.2⟩
        else ⟨states1, acc.st.transitions, ins.2⟩
      ⟨next_state, next_state_id, st2, true⟩

/-- `add_cycles` (`commute.rs:397-512`): for every cycle length from 2 to
`max_cycle_length`, every multiset of transition indices with a zero update
sum, every non-sink state id present when the candidate is processed, and
every (deduplicated) permutation of the sorted multiset, fire the
permutation where the running-minimum check deems it enabled. -/
def addCycles (model : AbstractVas) (st : CCBuildState) (max_cycle_length : Nat) :
    CCBuildState :=
  let transition_indices := List.range model.transitions.length
  (List.range' 2 (max_cycle_length - 1)).foldl
    (fun st1 cycle_len =>
      (combosWithRep cycle_len transition_indices).foldl
        (fun st2 cycle =>
          if (sumUpdateOf model cycle).all (fun x => x == 0) then
            let cycle_indices := sortNat cycle
            let cycle_permutations := uniqueList (allPerms cycle_indices)
            (List.range' 1 (st2.states.length - 1)).foldl
              (fun st3 state_id =>
                let state_vector :=
                  (st3.states.getD state_id defaultPrismState).state_vector
                cycle_permutations.foldl
                  (fun st4 perm =>
                    let min_vector := minVectorOf model cycle
                    let enabled :=
                      (state_vector.zip min_vector).all (fun p => 0 ≤ p.1 + p.2)
                    if !enabled then st4
                    else
                      (perm.foldl (fireStep model) ⟨state_vector, state_id, st4, true⟩).st)
                  st3)
              st2
          else st2)
        st1)
    st

/-- The absorbing-edge loop (`commute.rs:274-289`): one sink edge per
non-sink state, its rate the state's `total_rate` minus the summed rates of
the transitions of the GROWING transition list whose target is non-sink and
listed in the state's `next_states`. -/
def sinkLoop (st : CCBuildState) : List PrismStyleExplicitTransition :=
  (List.range' 1 (st.states.length - 1)).foldl
    (fun trs i =>
      trs ++
        [⟨i, 0,
          (st.states.getD i defaultPrismState).total_rate -
            ((trs.filter
                (fun tr => tr.to_state != 0 &&
                  (st.states.getD i defaultPrismState).next_states.contains tr.to_state)).map
              (fun tr => tr.rate)).sum⟩])
    st.transitions

/-- The phase of `cycle_commute` after the seed walk (`commute.rs:255-289`):
commuting expansion at depth 0, cycle closure, absorbing edges. -/
def ccFinishStage (model : AbstractVas) (s : CCWalkState) :
    List PrismStyleExplicitState × List PrismStyleExplicitTransition :=
  let st2 := commuteAux model MAX_DEPTH s.seed ⟨s.states, s.transitions, s.trie⟩
  let st3 := addCycles model st2 MAX_CYCLE_LENGTH
  (st3.states, sinkLoop st3)

/-- `cycle_commute` (`commute.rs:151-292`) up to file output: seed walk,
`commute`, `add_cycles`, absorbing-edge loop; `none` models the early
`error!` returns of the seed walk. -/
def cycleCommute (model : AbstractVas) (traces : List (List String)) :
    Option (List PrismStyleExplicitState × List PrismStyleExplicitTransition) :=
  (ccWalkStage model traces).map (ccFinishStage model)

/-! ## C1: sink-edge rate vs. total outgoing rate -/

def c1P : VasTransition := ⟨0, "p", [-1, 0, 1], [9, 9, 9], 1⟩

def c1Q : VasTransition := ⟨1, "q", [0, -1, 0], [9, 9, 9], 1⟩

def c1R : VasTransition := ⟨2, "r", [-1, -1, 1], [9, 9, 9], 1⟩

/-- Three species with initial state `(1, 1, 0)`; `r`'s update is the sum of
`p`'s and `q`'s, and no pair of transitions has a zero update sum. -/
def c1Model : AbstractVas :=
  ⟨["A", "B", "C"], [⟨[1, 1, 0]⟩], [c1P, c1Q, c1R], ⟨2, 1⟩⟩

def c1Traces : List (List String) := [["p", "q"], ["r"]]

/-- The state table `cycle_commute` builds on `c1Model` / `c1Traces`. -/
def c1States : List PrismStyleExplicitState :=
  [⟨[-1, -1, -1], 0, "SINK", []⟩,
   ⟨[0, 1, 1], 2187, "State 1", [2, 3]⟩,
   ⟨[0, 0, 1], 2187, "State 2", [3]⟩]

/-- The transition table `cycle_commute` builds on `c1Model` / `c1Traces`,
the last two edges being the sink edges of rows 1 and 2. -/
def c1Trans : List PrismStyleExplicitTransition :=
  [⟨1, 2, 729⟩, ⟨2, 3, 729⟩, ⟨1, 3, 729⟩, ⟨1, 0, 0⟩, ⟨2, 0, 729⟩]

/-- C1: on `c1Model` with seed traces `p q` and `r`, `cycle_commute` builds
exactly `c1States` / `c1Trans`; row 1 does get exactly one sink edge, but its
`total_rate` is 2187 while the rates of its outgoing edges (sink edge
included) sum to 1458: the loop at `commute.rs:274-289` subtracts the rates
of ALL transitions targeting a member of `next_states[1]` regardless of
their source row, so edge `2 -> 3` (rate 729) is wrongly subtracted and the
sink edge of row 1 gets rate 0 instead of 729. -/
theorem c1_sink_rate_mismatch :
    cycleCommute c1Model c1Traces = some (c1States, c1Trans)
    ∧ (c1Trans.filter (fun tr => tr.from_state == 1 && tr.to_state == 0)).length = 1
    ∧ (c1States.getD 1 defaultPrismState).total_rate = 2187
    ∧ ((c1Trans.filter (fun tr => tr.from_state == 1)).map (fun tr => tr.rate)).sum = 1458
    ∧ (1458 : Rat) ≠ 2187 := by
  refine ⟨by with_unfolding_all rfl, by rfl, by with_unfolding_all rfl,
    by with_unfolding_all rfl, by norm_num⟩

/-! ## C6: universally enabled transitions -/

/-- One species consumed by `t0`, which needs at least 1 of it. -/
def c6T : VasTransition := ⟨0, "t0", [-1], [1], 1⟩

def c6Model : AbstractVas := ⟨["A"], [⟨[1]⟩], [c6T], ⟨0, 0⟩⟩

/-- State table: sink row, row 1 holding `[1]`, row 2 holding `[0]` (the
state reached by firing `t0` from row 1). -/
def c6States : List PrismStyleExplicitState :=
  [⟨[-1], 0, "SINK", []⟩, ⟨[1], 1, "State 1", [2]⟩, ⟨[0], 1, "State 2", []⟩]

/-- The trace firing `t0` once, from row 1 to row 2. -/
def c6Trace : List PrismStyleExplicitTransition := [⟨1, 2, 1⟩]

/-- C6: `commute`'s universally-enabled computation on `c6Model` returns
`[t0]` although `t0` is disabled at the visited state `[0]` (the trace's own
target): the loop at `commute.rs:320-328` resets `current_state` to the
trace's first state on every iteration, so later visited states are never
consulted; the spec-side set (enabled at every visited state) is empty. -/
theorem c6_universally_enabled_mismatch :
    universallyEnabledCode c6Model c6States c6Trace = [c6T]
    ∧ universallyEnabledSpec c6Model c6States c6Trace = []
    ∧ visitedStates c6States c6Trace = [[1], [0]]
    ∧ c6T.enabledVector [1] = true
    ∧ c6T.enabledVector [0] = false := by
  refine ⟨by with_unfolding_all rfl, by with_unfolding_all rfl, by rfl, by rfl, by rfl⟩

/-! ## RL trace generation (`src/builder/ragtimer/rl_traces.rs`)

`generate_single_trace` and the trace-accepting loop of `add_rl_traces`.
The PRNG is modelled by oracles: `shuffleO k l` is what the `k`-th shuffle
turns `l` into, `drawO k` is the `k`-th `random::<f64>()` draw.  Both loops
can run unboundedly (a `while` iteration that selects no transition does not
grow the trace, and the `loop` of `add_rl_traces` retries forever while the
generated trace is empty or duplicate), so both are given fuel and return
`none` when it runs out: `some` results are exactly the terminating runs. -/

/-- `MAX_TRACE_LENGTH` (`rl_traces.rs:26`). -/
def MAX_TRACE_LENGTH : Nat := 10000

/-- `HashMap::get` on the rewards map, as association-list lookup. -/
def lookupEntry : List (Nat × Rat) → Nat → Option Rat
  | [], _ => none
  | (k, r) :: rest, t => if k = t then some r else lookupEntry rest t

/-- `AbstractVas::get_transition_from_id` (`vas_model.rs:386-391`). -/
def AbstractVas.getTransitionFromId (m : AbstractVas) (tid : Nat) : Option VasTransition :=
  m.transitions.find? (fun t => t.transition_id == tid)

/-- `get_available_transitions` (`rl_traces.rs:154-169`): ids of the
transitions whose `enabled_bounds`, zipped with the state, are all covered. -/
def getAvailableTransitions (model : AbstractVas) (current : VasStateVector) : List Nat :=
  (model.transitions.filter
    (fun t => (t.enabled_bounds.zip current).all (fun p => p.1 ≤ p.2))).map
    (fun t => t.transition_id)

/-- `crn_transition_rate` (`rl_traces.rs:173-183`): `rate_const` summed once
per state component times that component. -/
def crnTransitionRate (current : VasStateVector) (t : VasTransition) : Rat :=
  current.foldl (fun acc v => acc + t.rate_const * (v : Rat)) 0

/-- The accumulation loop of `crn_total_outgoing_rate` (`rl_traces.rs:202-218`);
a missing transition id makes the whole function return 0. -/
def crnTotalOutgoingRateAux (model : AbstractVas) (current : VasStateVector) :
    List Nat → Rat → Rat
  | [], acc => acc
  | tid :: rest, acc =>
      match model.getTransitionFromId tid with
      | some vt => crnTotalOutgoingRateAux model current rest (acc + crnTransitionRate current vt)
      | none => 0

def crnTotalOutgoingRate (model : AbstractVas) (current : VasStateVector) : Rat :=
  crnTotalOutgoingRateAux model current (getAvailableTransitions model current) 0

/-- `crn_transition_probability` (`rl_traces.rs:187-198`).  `Rat` division by
zero yields 0 where `f64` would produce NaN/inf; no run studied below
evaluates the division at all. -/
def crnTransitionProbability (model : AbstractVas) (current : VasStateVector)
    (t : VasTransition) : Rat :=
  crnTransitionRate current t / crnTotalOutgoingRate model current

/-- The selection probability of a candidate (`rl_traces.rs:404-410`). -/
def selectionProbability (rewards : List (Nat × Rat)) (total : Rat) (tid : Nat) : Rat :=
  let r := (lookupEntry rewards tid).getD 0
  if 0 < total then r / total else r

/-- The candidate loop of `generate_single_trace` (`rl_traces.rs:402-429`):
the first transition of the shuffled list whose draw beats its selection
probability is chosen (`break` fires only inside the success branch). -/
def pickFirst (drawO : Nat → Rat) (rewards : List (Nat × Rat)) (total : Rat) :
    Nat → List Nat → Option Nat
  | _, [] => none
  | k, tid :: rest =>
      if drawO k < selectionProbability rewards total tid then some tid
      else pickFirst drawO rewards total (k + 1) rest

/-- The `while` loop of `generate_single_trace` (`rl_traces.rs:370-430`),
one fuel unit per iteration; the oracle counter `ctr` advances past every
shuffle and draw consumed. -/
def genSingleTraceAux (model : AbstractVas) (rewards : List (Nat × Rat))
    (shuffleO : Nat → List Nat → List Nat) (drawO : Nat → Rat) :
    Nat → Nat → VasStateVector → List Nat → Rat → Option (List Nat × Rat)
  | 0, _, _, _, _ => none
  | f + 1, ctr, current, trace, p =>
      if trace.length < MAX_TRACE_LENGTH then
        let reached :=
          decide (model.target.variable_index < current.length) &&
            decide (current.getD model.target.variable_index 0 = model.target.target_value)
        if reached then some (trace, p)
        else
          let available := getAvailableTransitions model current
          if available.isEmpty then some (trace, p)
          else
            let shuffled := shuffleO ctr available
            let total := (shuffled.filterMap (lookupEntry rewards)).sum
            match pickFirst drawO rewards total (ctr + 1) shuffled with
            | none =>
                genSingleTraceAux model rewards shuffleO drawO f
                  (ctr + 1 + shuffled.length) current trace p
            | some tid =>
                match model.getTransitionFromId tid with
                | some vt =>
                    let current2 := vadd current vt.update_vector
                    genSingleTraceAux model rewards shuffleO drawO f
                      (ctr + 1 + shuffled.length) current2 (trace ++ [tid])
                      (p * crnTransitionProbability model current2 vt)
                | none =>
                    genSingleTraceAux model rewards shuffleO drawO f
                      (ctr + 1 + shuffled.length) current trace p
      else some (trace, p)

/-- `generate_single_trace` (`rl_traces.rs:360-433`), starting from
`initial_states[0]` with an empty trace of probability 1. -/
def genSingleTrace (model : AbstractVas) (rewards : List (Nat × Rat))
    (shuffleO : Nat → List Nat → List Nat) (drawO : Nat → Rat)
    (fuel ctr : Nat) : Option (List Nat × Rat) :=
  genSingleTraceAux model rewards shuffleO drawO fuel ctr
    (model.initial_states.headD ⟨[]⟩).vector [] 1

/-- The trace-accepting loop of `add_rl_traces` (`rl_traces.rs:497-522`).
`gen k` is the result of the `k`-th `generate_single_trace` call (absorbing
the PRNG and the evolving rewards); one fuel unit per call.  A generated
trace is accepted when `exists_or_insert` reports it new AND it is
non-empty; `exists_or_insert` updates the trie in either case.  `acc` logs
the accepted traces with their probabilities
(`trace_probability_history.push` / `store_explicit_trace`). -/
def addRlTracesLoop (gen : Nat → List Nat × Rat) :
    Nat → Nat → TraceTrieNode → List (List Nat × Rat) → Nat →
    Option (TraceTrieNode × List (List Nat × Rat))
  | _, 0, trie, acc, _ => some (trie, acc)
  | 0, _ + 1, _, _, _ => none
  | f + 1, n + 1, trie, acc, ctr =>
      let r := gen ctr
      let ins := trie.existsOrInsert r.1
      if !ins.1 && !r.1.isEmpty then
        addRlTracesLoop gen f n ins.2 (acc ++ [r]) (ctr + 1)
      else
        addRlTracesLoop gen f (n + 1) ins.2 acc (ctr + 1)

/-- `add_rl_traces` trace generation (`rl_traces.rs:446-522`) for
`num_traces` traces, from the fresh `TraceTrieNode::new()`. -/
def addRlTraces (gen : Nat → List Nat × Rat) (num_traces fuel : Nat) :
    Option (TraceTrieNode × List (List Nat × Rat)) :=
  addRlTracesLoop gen fuel num_traces (.node []) [] 0

/-! ## C9: the trace regeneration loop -/

/-- One species, no transitions, initial state `[0]`, target `A = 5`:
`generate_single_trace` can only ever produce the empty trace here. -/
def c9Model : AbstractVas := ⟨["A"], [⟨[0]⟩], [], ⟨0, 5⟩⟩

/-- On `c9Model`, every `generate_single_trace` call returns the empty trace
at once (whatever the rewards map, the PRNG behaviour, and the positive
fuel), and the accepting loop of `add_rl_traces` fed empty traces returns
within NO fuel bound while at least one trace is still required: the
regeneration `loop` never accepts, i.e. `add_rl_traces` diverges. -/
def C9RegenerationDiverges : Prop :=
  (∀ (rewards : List (Nat × Rat)) (shuffleO : Nat → List Nat → List Nat)
      (drawO : Nat → Rat) (f ctr : Nat),
    genSingleTrace c9Model rewards shuffleO drawO (f + 1) ctr = some ([], 1))
  ∧ ∀ (fuel n ctr : Nat) (trie : TraceTrieNode) (acc : List (List Nat × Rat)),
      addRlTracesLoop (fun _ => ([], 1)) fuel (n + 1) trie acc ctr = none

/-- C9 counterexample: the claim's "the regeneration loop always eventually
accepts a trace" fails on `c9Model` (no transitions): every generated trace
is empty, every empty trace is rejected, and the `loop` at
`rl_traces.rs:501-509` spins forever. -/
theorem c9_counterexample : C9RegenerationDiverges := by
  constructor
  · intro rewards shuffleO drawO f ctr
    rfl
  · intro fuel
    induction fuel with
    | zero => intro n ctr trie acc; rfl
    | succ f ih =>
        intro n ctr trie acc
        simp only [addRlTracesLoop, List.isEmpty_nil, Bool.not_true, Bool.and_false,
          Bool.false_eq_true, if_false]
        exact ih n (ctr + 1) (trie.existsOrInsert []).2 acc

/-- Invariant induction for the accepting loop: starting from a trie holding
every accepted trace so far, a terminating run accepts exactly `n` more
traces, all non-empty, pairwise distinct, and all recorded in the final
trie. -/
theorem addRlTracesLoop_spec (gen : Nat → List Nat × Rat) :
    ∀ (fuel n ctr : Nat) (trie : TraceTrieNode) (acc : List (List Nat × Rat))
      (out : TraceTrieNode × List (List Nat × Rat)),
      addRlTracesLoop gen fuel n trie acc ctr = some out →
      (∀ t ∈ acc, trie.memTrace t.1 = true) →
      (∀ t ∈ acc, t.1.isEmpty = false) →
      acc.Pairwise (fun a b => a.1 ≠ b.1) →
      out.2.length = acc.length + n
      ∧ (∀ t ∈ out.2, t.1.isEmpty = false)
      ∧ out.2.Pairwise (fun a b => a.1 ≠ b.1)
      ∧ (∀ t ∈ out.2, out.1.memTrace t.1 = true) := by
  intro fuel
  induction fuel with
  | zero =>
      intro n ctr trie acc out h h1 h2 h3
      cases n with
      | zero =>
          have hout : (trie, acc) = out := by simpa [addRlTracesLoop] using h
          subst hout
          exact ⟨by simp, h2, h3, h1⟩
      | succ m => simp [addRlTracesLoop] at h
  | succ f ih =>
      intro n ctr trie acc out h h1 h2 h3
      cases n with
      | zero =>
          have hout : (trie, acc) = out := by simpa [addRlTracesLoop] using h
          subst hout
          exact ⟨by simp, h2, h3, h1⟩
      | succ m =>
          simp only [addRlTracesLoop] at h
          by_cases hb : (!(trie.existsOrInsert (gen ctr).1).1 && !(gen ctr).1.isEmpty) = true
          · rw [if_pos hb] at h
            simp only [Bool.and_eq_true, Bool.not_eq_true'] at hb
            obtain ⟨hfst, hne⟩ := hb
            have hmem : trie.memTrace (gen ctr).1 = false := by
              rw [← existsOrInsert_fst]; exact hfst
            have inv1 : ∀ t ∈ acc ++ [gen ctr],
                ((trie.existsOrInsert (gen ctr).1).2).memTrace t.1 = true := by
              intro t ht
              rcases List.mem_append.mp ht with hta | htn
              · exact memTrace_existsOrInsert_mono _ _ _ (h1 t hta)
              · have : t = gen ctr := by simpa using htn
                subst this
                exact memTrace_existsOrInsert_self _ _
            have inv2 : ∀ t ∈ acc ++ [gen ctr], t.1.isEmpty = false := by
              intro t ht
              rcases List.mem_append.mp ht with hta | htn
              · exact h2 t hta
              · have : t = gen ctr := by simpa using htn
                subst this
                exact hne
            have inv3 : (acc ++ [gen ctr]).Pairwise (fun a b => a.1 ≠ b.1) := by
              refine List.pairwise_append.mpr ⟨h3, by simp, ?_⟩
              intro a ha b hbm
              have hbeq : b = gen ctr := by simpa using hbm
              subst hbeq
              intro heq
              have := h1 a ha
              rw [heq, hmem] at this
              exact Bool.false_ne_true this
            obtain ⟨hlen, hA, hB, hC⟩ := ih m (ctr + 1) _ _ out h inv1 inv2 inv3
            refine ⟨?_, hA, hB, hC⟩
            simp only [List.length_append, List.length_singleton] at hlen
            omega
          · rw [if_neg hb] at h
            have inv1 : ∀ t ∈ acc,
                ((trie.existsOrInsert (gen ctr).1).2).memTrace t.1 = true := by
              intro t ht
              exact memTrace_existsOrInsert_mono _ _ _ (h1 t ht)
            obtain ⟨hlen, hA, hB, hC⟩ := ih (m + 1) (ctr + 1) _ _ out h inv1 h2 h3
            exact ⟨hlen, hA, hB, hC⟩

/-- C9 (amended): IF the trace loop of `add_rl_traces` terminates, it has
accepted exactly `num_traces` traces, each non-empty, pairwise distinct, and
each recorded in the trace trie — but termination itself is NOT guaranteed
(see the counterexample): the regeneration `loop` diverges whenever only
empty or duplicate traces can be generated. -/
theorem c9_accepted_traces (gen : Nat → List Nat × Rat) (num_traces fuel : Nat)
    (out : TraceTrieNode × List (List Nat × Rat))
    (h : addRlTraces gen num_traces fuel = some out) :
    out.2.length = num_traces
    ∧ (∀ t ∈ out.2, t.1.isEmpty = false)
    ∧ out.2.Pairwise (fun a b => a.1 ≠ b.1)
    ∧ (∀ t ∈ out.2, out.1.memTrace t.1 = true) := by
  have hs := addRlTracesLoop_spec gen fuel num_traces 0 (.node []) [] out h
    (by intro t ht; simp at ht) (by intro t ht; simp at ht) (by simp)
  simpa using hs

def c9WitGen : Nat → List Nat × Rat := fun k => ([k + 1], 1)

def c9WitOut : TraceTrieNode × List (List Nat × Rat) :=
  (.node [(1, .leafNode), (2, .leafNode)], [([1], 1), ([2], 1)])

theorem c9_accepted_traces_witness :
    c9WitOut.2.length = 2
    ∧ (∀ t ∈ c9WitOut.2, t.1.isEmpty = false)
    ∧ c9WitOut.2.Pairwise (fun a b => a.1 ≠ b.1)
    ∧ (∀ t ∈ c9WitOut.2, c9WitOut.1.memTrace t.1 = true) :=
  c9_accepted_traces c9WitGen 2 2 c9WitOut (by rfl)
